import Mathlib

/-!
# Group game bot: subscription registry, persistence and dispatcher

A shallow embedding of `main.go`.  The three process-wide `sync.Map`s are
association lists threaded through the handlers; every handler returns the
new state together with the ordered list of effects it performed (replies,
messages sent through the transport, timers armed, file writes).

Conventions of the embedding:

* Go strings are Lean strings (sequences of code points); every string
  function is written over the character list so that it evaluates.
* `int64` and `int` values are integers; the places where the 64-bit range
  matters (`strconv`, `encoding/json`, `time.Duration`) test or wrap
  explicitly.
* A `sync.Map` holds every key once.  The association-list operations keep
  that property and the theorems that depend on it assume it.
* The order in which `Range` visits a map is the order of the list, so a
  statement about every state is a statement about every visiting order.
* The upper-case table of Unicode belongs to the Go library.  The handlers are
  written with the ASCII mapping; `getSubKeyBy` and the handlers named `...By`
  are the same functions with the mapping of runes as a parameter, and the
  statements about which names coincide are made over every such mapping.
-/

namespace TgBot

/-! ## Strings (`strings`, `fmt`, `html`) -/

/-- Upper-casing as done by `strings.ToUpper`, restricted to the ASCII letters:
the instance at `Char.toUpper` of `toUpperBy` below, which takes the mapping of
runes as a parameter. -/
def toUpper (s : String) : String := ⟨s.data.map Char.toUpper⟩

/-- The decimal digit for a value below ten. -/
def digitChar : Nat → Char
  | 0 => '0' | 1 => '1' | 2 => '2' | 3 => '3' | 4 => '4'
  | 5 => '5' | 6 => '6' | 7 => '7' | 8 => '8' | _ => '9'

/-- Decimal digits of `n`, most significant first, pushed in front of `acc`. -/
def natDigits : Nat → Nat → List Char → List Char
  | 0, _, acc => acc
  | fuel + 1, n, acc =>
    if n / 10 = 0 then digitChar (n % 10) :: acc
    else natDigits fuel (n / 10) (digitChar (n % 10) :: acc)

/-- The verb `%d` applied to a non-negative integer. -/
def fmtNat (n : Nat) : String := ⟨natDigits (n + 1) n []⟩

/-- The verb `%d` of `fmt.Sprintf` applied to an integer. -/
def fmtInt : Int → String
  | Int.ofNat n => fmtNat n
  | Int.negSucc n => "-" ++ fmtNat (n + 1)

/-- Replacement of one character by `html.EscapeString`. -/
def escapeChar (c : Char) : List Char :=
  if c = '&' then "&amp;".data
  else if c = Char.ofNat 39 then "&#39;".data
  else if c = '<' then "&lt;".data
  else if c = '>' then "&gt;".data
  else if c = '"' then "&#34;".data
  else [c]

/-- The function `html.EscapeString`. -/
def escapeString (s : String) : String := ⟨s.data.flatMap escapeChar⟩

/-- The function `strings.Join`. -/
def join : List String → String → String
  | [], _ => ""
  | [a], _ => a
  | a :: b :: rest, sep => a ++ sep ++ join (b :: rest) sep

/-- The function `strings.HasPrefix`. -/
def startsWith (s p : String) : Bool := p.data.isPrefixOf s.data

/-- The function `strings.TrimPrefix`. -/
def trimStart (s p : String) : String :=
  if startsWith s p then ⟨s.data.drop p.length⟩ else s

/-! ## Maps (`sync.Map`, Go maps) -/

/-- A map as the list of its entries, one entry for each key. -/
abbrev GoMap (α β : Type) := List (α × β)

/-- The value stored under a key (`Load`). -/
def GoMap.load {α β : Type} [DecidableEq α] : GoMap α β → α → Option β
  | [], _ => none
  | (k', v) :: m, k => if k' = k then some v else GoMap.load m k

/-- Sets the value of a key, keeping the place of an existing entry (`Store`). -/
def GoMap.store {α β : Type} [DecidableEq α] : GoMap α β → α → β → GoMap α β
  | [], k, v => [(k, v)]
  | (k', v') :: m, k, v =>
    if k' = k then (k, v) :: m else (k', v') :: GoMap.store m k v

/-- Removes a key (`Delete`). -/
def GoMap.delete {α β : Type} [DecidableEq α] (m : GoMap α β) (k : α) : GoMap α β :=
  m.filter (fun e => decide (e.1 ≠ k))

/-- Returns the existing value of a key, or stores and returns the given one
(`LoadOrStore`). -/
def GoMap.loadOrStore {α β : Type} [DecidableEq α] (m : GoMap α β) (k : α) (v : β) :
    GoMap α β × β :=
  match GoMap.load m k with
  | some w => (m, w)
  | none => (GoMap.store m k v, v)

/-! ## Models -/

structure GameConfig where
  Message : String
  Time : Int
  deriving DecidableEq, Repr

structure UserSubscription where
  ID : Int
  FirstName : String
  deriving DecidableEq, Repr

/-- The fields of `telebot.User` the handlers read. -/
structure Sender where
  ID : Int
  FirstName : String
  Username : String
  deriving DecidableEq, Repr

/-- The persisted store. -/
structure BotStorage where
  Subscriptions : GoMap String (List UserSubscription)
  BanList : GoMap Int Bool
  deriving DecidableEq, Repr

/-- A JSON document: the content of the store file once parsed.  `frac` stands
for a number literal that is not a plain integer. -/
inductive Json where
  | null
  | bool (b : Bool)
  | num (n : Int)
  | frac
  | str (s : String)
  | arr (xs : List Json)
  | obj (kvs : List (String × Json))

/-- The global state of the process. -/
structure BotState where
  subscriptions : GoMap String (List UserSubscription)
  banList : GoMap Int Bool
  gameConfigs : GoMap String GameConfig
  ownerID : Int
  deriving DecidableEq, Repr

/-- What a handler does to the outside, in order. -/
inductive Effect where
  /-- A call `c.Send(text)`. -/
  | send (text : String)
  /-- A call `c.Reply(text)`. -/
  | reply (text : String)
  /-- A call `b.Send(chatID, text)` followed by the pin request of `sendGame`. -/
  | announce (chatID : Int) (text : String)
  /-- A call `time.AfterFunc(duration, ...)` whose callback runs `sendGame`. -/
  | afterFunc (duration : Int) (chatID : Int) (game msg sender : String)
  /-- A call `os.WriteFile(dbPath, ...)`. -/
  | writeFile (doc : Json)

/-- State of the process before `loadConfigs` and `loadData`. -/
def BotState.init (owner : Int) : BotState :=
  { subscriptions := [], banList := [], gameConfigs := [], ownerID := owner }

/-! ## Numbers (`strconv`) -/

/-- Outcome of a `strconv` parse: no error, `ErrSyntax` or `ErrRange`. -/
inductive NumStatus where
  | ok
  | badSyntax
  | outOfRange
  deriving DecidableEq, Repr

/-- The digit loop of `strconv.ParseUint` for base 10 and 64 bits: `n` is the
value read so far. -/
def parseUintLoop : List Char → Nat → Nat × NumStatus
  | [], n => (n, NumStatus.ok)
  | c :: cs, n =>
    if 48 ≤ c.toNat ∧ c.toNat ≤ 57 then
      if n ≥ (2 ^ 64 - 1) / 10 + 1 then (2 ^ 64 - 1, NumStatus.outOfRange)
      else if n * 10 + (c.toNat - 48) > 2 ^ 64 - 1 then (2 ^ 64 - 1, NumStatus.outOfRange)
      else parseUintLoop cs (n * 10 + (c.toNat - 48))
    else (0, NumStatus.badSyntax)

/-- The call `strconv.ParseUint(s, 10, 64)`. -/
def parseUint (s : List Char) : Nat × NumStatus :=
  match s with
  | [] => (0, NumStatus.badSyntax)
  | _ => parseUintLoop s 0

/-- Sign handling and clamping of `strconv.ParseInt(s, 10, 64)`, after the sign
has been removed. -/
def parseIntSigned (neg : Bool) (digits : List Char) : Int × NumStatus :=
  match parseUint digits with
  | (_, NumStatus.badSyntax) => (0, NumStatus.badSyntax)
  | (un, _) =>
    if !neg && decide (un ≥ 2 ^ 63) then (2 ^ 63 - 1, NumStatus.outOfRange)
    else if neg && decide (un > 2 ^ 63) then (-(2 ^ 63), NumStatus.outOfRange)
    else if neg then (-(un : Int), NumStatus.ok)
    else ((un : Int), NumStatus.ok)

/-- The call `strconv.ParseInt(s, 10, 64)`: the value returned and the error. -/
def parseInt (s : String) : Int × NumStatus :=
  match s.data with
  | [] => (0, NumStatus.badSyntax)
  | c :: cs =>
    if c = '+' then parseIntSigned false cs
    else if c = '-' then parseIntSigned true cs
    else parseIntSigned false (c :: cs)

/-- The call `strconv.Atoi(s)` with a 64-bit `int`; its fast path for short
inputs returns what `ParseInt(s, 10, 0)` returns. -/
def atoi (s : String) : Int × NumStatus := parseInt s

/-- Whether an integer is an `int64` value. -/
def isInt64 (n : Int) : Bool := decide (-(2 ^ 63) ≤ n) && decide (n < 2 ^ 63)

/-! ## JSON (`encoding/json`) -/

/-- Encoding of one subscriber by `json.Marshal`. -/
def marshalUser (u : UserSubscription) : Json :=
  Json.obj [("id", Json.num u.ID), ("first_name", Json.str u.FirstName)]

/-- Encoding of a `BotStorage` by `json.Marshal`.  Map keys are written in
sorted order by the library; the order of an object plays no part in decoding
and the entries are listed here as they stand. -/
def marshalStore (store : BotStorage) : Json :=
  Json.obj
    [("subscriptions",
        Json.obj (store.Subscriptions.map (fun e => (e.1, Json.arr (e.2.map marshalUser))))),
     ("ban_list",
        Json.obj (store.BanList.map (fun e => (fmtInt e.1, Json.bool e.2))))]

/-- Whether an object key selects the field of the given (lower-case) JSON
name: equal up to the case of ASCII letters. -/
def fieldMatch (key name : String) : Bool :=
  key.data.map Char.toLower == name.data

/-- Decoding into an `int64` that holds `cur`. -/
def decodeInt64 (cur : Int) : Json → Option Int
  | Json.null => some cur
  | Json.num n => if isInt64 n then some n else none
  | _ => none

/-- Decoding into a `string` that holds `cur`. -/
def decodeString (cur : String) : Json → Option String
  | Json.null => some cur
  | Json.str s => some s
  | _ => none

/-- Decoding into a `bool` that holds `cur`. -/
def decodeBool (cur : Bool) : Json → Option Bool
  | Json.null => some cur
  | Json.bool b => some b
  | _ => none

/-- Decoding of the members of an object into a `UserSubscription`: unknown
keys are skipped. -/
def decodeUserFields : List (String × Json) → UserSubscription → Option UserSubscription
  | [], u => some u
  | (k, v) :: rest, u =>
    if fieldMatch k "id" then
      (decodeInt64 u.ID v).bind (fun i => decodeUserFields rest { u with ID := i })
    else if fieldMatch k "first_name" then
      (decodeString u.FirstName v).bind (fun s => decodeUserFields rest { u with FirstName := s })
    else decodeUserFields rest u

/-- Decoding into a `UserSubscription` that holds `cur`. -/
def decodeUser (cur : UserSubscription) : Json → Option UserSubscription
  | Json.null => some cur
  | Json.obj kvs => decodeUserFields kvs cur
  | _ => none

/-- Decoding of the elements of an array, each into a zero subscriber. -/
def decodeUsers : List Json → Option (List UserSubscription)
  | [] => some []
  | j :: js =>
    (decodeUser ⟨0, ""⟩ j).bind (fun u => (decodeUsers js).bind (fun us => some (u :: us)))

/-- Decoding into a `[]UserSubscription`. -/
def decodeSlice : Json → Option (List UserSubscription)
  | Json.null => some []
  | Json.arr xs => decodeUsers xs
  | _ => none

/-- Decoding of the members of an object into a `map[string][]UserSubscription`. -/
def decodeSubsFields : List (String × Json) → GoMap String (List UserSubscription) →
    Option (GoMap String (List UserSubscription))
  | [], m => some m
  | (k, v) :: rest, m =>
    (decodeSlice v).bind (fun l => decodeSubsFields rest (GoMap.store m k l))

/-- Decoding into a `map[string][]UserSubscription` that holds `cur`. -/
def decodeSubs (cur : GoMap String (List UserSubscription)) :
    Json → Option (GoMap String (List UserSubscription))
  | Json.null => some []
  | Json.obj kvs => decodeSubsFields kvs cur
  | _ => none

/-- Decoding of the members of an object into a `map[int64]bool`: a key must
parse with `strconv.ParseInt`. -/
def decodeBansFields : List (String × Json) → GoMap Int Bool → Option (GoMap Int Bool)
  | [], m => some m
  | (k, v) :: rest, m =>
    (decodeBool false v).bind (fun b =>
      match parseInt k with
      | (n, NumStatus.ok) => decodeBansFields rest (GoMap.store m n b)
      | _ => none)

/-- Decoding into a `map[int64]bool` that holds `cur`. -/
def decodeBans (cur : GoMap Int Bool) : Json → Option (GoMap Int Bool)
  | Json.null => some []
  | Json.obj kvs => decodeBansFields kvs cur
  | _ => none

/-- Decoding of the members of an object into a `BotStorage`: a key that names
no field is skipped together with its value. -/
def decodeStoreFields : List (String × Json) → BotStorage → Option BotStorage
  | [], s => some s
  | (k, v) :: rest, s =>
    if fieldMatch k "subscriptions" then
      (decodeSubs s.Subscriptions v).bind
        (fun m => decodeStoreFields rest { s with Subscriptions := m })
    else if fieldMatch k "ban_list" then
      (decodeBans s.BanList v).bind (fun m => decodeStoreFields rest { s with BanList := m })
    else decodeStoreFields rest s

/-- The call `json.Unmarshal(bytes, &store)` on a zero `BotStorage`; `none` is a
returned error. -/
def unmarshalStore : Json → Option BotStorage
  | Json.null => some ⟨[], []⟩
  | Json.obj kvs => decodeStoreFields kvs ⟨[], []⟩
  | _ => none

/-- The call `json.Unmarshal(bytes, &oldData)` on a nil map. -/
def unmarshalLegacy (j : Json) : Option (GoMap String (List UserSubscription)) :=
  decodeSubs [] j

/-! ## Persistence -/

/-- The document `saveData` writes to the store file. -/
def saveData (st : BotState) : Json :=
  marshalStore
    { Subscriptions := st.subscriptions.foldl (fun m e => GoMap.store m e.1 e.2) [],
      BanList := st.banList.foldl (fun m e => GoMap.store m e.1 true) [] }

/-- The function `loadData`; `file` is the parsed content of the store file,
`none` when the file cannot be read or is not JSON. -/
def loadData (file : Option Json) (st : BotState) : BotState :=
  match file with
  | none => st
  | some j =>
    match unmarshalStore j with
    | some store =>
      { st with
        subscriptions := store.Subscriptions.foldl (fun m e => GoMap.store m e.1 e.2) st.subscriptions,
        banList := store.BanList.foldl (fun m e => GoMap.store m e.1 e.2) st.banList }
    | none =>
      match unmarshalLegacy j with
      | some oldData =>
        { st with
          subscriptions := oldData.foldl (fun m e => GoMap.store m e.1 e.2) st.subscriptions }
      | none => st

/-! ## Logic helpers -/

def getSubKey (chatID : Int) (game : String) : String :=
  fmtInt chatID ++ ":" ++ toUpper game

/-- The mention token of one subscriber. -/
def mentionToken (u : UserSubscription) : String :=
  "<a href=\"tg://user?id=" ++ fmtInt u.ID ++ "\">" ++ escapeString u.FirstName ++ "</a>"

/-- The loop of `getMentions`: `i` is the index of the head of the remaining
list, `mentions` the tokens collected so far. -/
def mentionLoop : List UserSubscription → Nat → List String → List String
  | [], _, mentions => mentions
  | u :: rest, i, mentions =>
    if i ≥ 50 then mentions
    else mentionLoop rest (i + 1) (mentions ++ [mentionToken u])

def getMentions (st : BotState) (chatID : Int) (game : String) : String :=
  let key := getSubKey chatID game
  match GoMap.load st.subscriptions key with
  | some list => join (mentionLoop list 0 []) ", "
  | none => join [] ", "

/-! ## Handlers -/

/-- One step of the `Range` callback of `handleList`: the builder content and
the `found` flag before and after visiting an entry. -/
def listStep (pfx : String) (acc : String × Bool) (e : String × List UserSubscription) :
    String × Bool :=
  if startsWith e.1 pfx then
    let gameName := trimStart e.1 pfx
    (acc.1 ++ ("\n🔹 <b>" ++ gameName ++ "</b> (" ++ fmtInt e.2.length ++ "): ")
        ++ join (e.2.map (fun u => escapeString u.FirstName)) ", ", true)
  else acc

def handleList (st : BotState) (chatID : Int) : List Effect :=
  let pfx := fmtInt chatID ++ ":"
  let r := st.subscriptions.foldl (listStep pfx) ("📋 <b>Group Categories:</b>\n", false)
  if !r.2 then [Effect.send "📋 No active categories."]
  else [Effect.send r.1]

def handleJoin (st : BotState) (chatID : Int) (args : List String) (sender : Sender) :
    BotState × List Effect :=
  match args with
  | [] => (st, [Effect.send "❌ Usage: /join <game>"])
  | a :: _ =>
    let game := toUpper a
    let key := getSubKey chatID game
    let user : UserSubscription := { ID := sender.ID, FirstName := sender.FirstName }
    let r := GoMap.loadOrStore st.subscriptions key []
    if r.2.any (fun u => decide (u.ID = user.ID)) then
      ({ st with subscriptions := r.1 }, [Effect.reply "✨ Already in list."])
    else
      let st2 := { st with subscriptions := GoMap.store r.1 key (r.2 ++ [user]) }
      (st2, [Effect.writeFile (saveData st2), Effect.reply ("✅ Joined " ++ game)])

/-- The text `sendGame` sends. -/
def gameText (st : BotState) (chatID : Int) (game msg sender : String) : String :=
  "🎮 <b>" ++ escapeString game ++ "</b>\n" ++ escapeString msg ++ "\n\nInvited by: "
    ++ escapeString sender ++ "\n\n🔔 " ++ getMentions st chatID game

def sendGame (st : BotState) (chatID : Int) (game msg sender : String) : List Effect :=
  [Effect.announce chatID (gameText st chatID game msg sender)]

/-- The conversion `time.Duration(delay) * time.Minute`, in nanoseconds, as a
signed 64-bit product. -/
def minutes (delay : Int) : Int :=
  (delay * 60000000000 + 2 ^ 63) % 2 ^ 64 - 2 ^ 63

def handleGoPlay (st : BotState) (chatID : Int) (args : List String) (sender : Sender) :
    List Effect :=
  match args with
  | [] => [Effect.send "❌ Usage: /goplay <game>"]
  | a :: more =>
    let game := toUpper a
    let cfg : GameConfig :=
      match GoMap.load st.gameConfigs game with
      | some c => c
      | none => { Message := "Get ready!", Time := 0 }
    let delay : Int :=
      match more with
      | [] => cfg.Time
      | d :: _ =>
        match atoi d with
        | (n, NumStatus.ok) => n
        | _ => cfg.Time
    if delay > 0 then
      [Effect.afterFunc (minutes delay) chatID game cfg.Message "Scheduled System",
       Effect.reply ("⏳ Scheduled " ++ game ++ " in " ++ fmtInt delay ++ " mins.")]
    else sendGame st chatID game cfg.Message sender.Username

def handleLeave (st : BotState) (chatID : Int) (args : List String) (sender : Sender) :
    BotState × List Effect :=
  match args with
  | [] => (st, [Effect.send "❌ Usage: /leave <game>"])
  | a :: _ =>
    let game := toUpper a
    let key := getSubKey chatID game
    match GoMap.load st.subscriptions key with
    | some list =>
      let newList := list.filter (fun u => decide (u.ID ≠ sender.ID))
      let st2 := { st with subscriptions := GoMap.store st.subscriptions key newList }
      (st2, [Effect.writeFile (saveData st2), Effect.reply ("🗑 Left " ++ game)])
    | none => (st, [Effect.reply ("🗑 Left " ++ game)])

def handleGameNow (st : BotState) (chatID : Int) (args : List String) (sender : Sender) :
    List Effect :=
  match args with
  | [] => [Effect.send "❌ /gamenow <game>"]
  | a :: _ => sendGame st chatID (toUpper a) "Starting NOW!" sender.Username

/-- The closure `isAdmin` of `main`. -/
def isAdmin (st : BotState) (id : Int) : Bool := decide (id = st.ownerID)

/-- The handler of `/ban`; `none` is the run-time failure of `c.Args()[0]` on an
empty argument list. -/
def handleBan (st : BotState) (args : List String) (sender : Sender) :
    Option (BotState × List Effect) :=
  if !isAdmin st sender.ID then some (st, [])
  else
    match args with
    | [] => none
    | a :: _ =>
      let id := (parseInt a).1
      let st2 := { st with banList := GoMap.store st.banList id true }
      some (st2, [Effect.writeFile (saveData st2),
        Effect.send ("🔨 User " ++ fmtInt id ++ " restricted (No tags in /list).")])

/-- The handler of `/unban`. -/
def handleUnban (st : BotState) (args : List String) (sender : Sender) :
    Option (BotState × List Effect) :=
  if !isAdmin st sender.ID then some (st, [])
  else
    match args with
    | [] => none
    | a :: _ =>
      let id := (parseInt a).1
      let st2 := { st with banList := GoMap.delete st.banList id }
      some (st2, [Effect.writeFile (saveData st2),
        Effect.send ("✅ User " ++ fmtInt id ++ " unrestricted.")])

/-- The handler of `/rmcat`. -/
def handleRmcat (st : BotState) (chatID : Int) (args : List String) (sender : Sender) :
    Option (BotState × List Effect) :=
  if !isAdmin st sender.ID then some (st, [])
  else
    match args with
    | [] => none
    | a :: _ =>
      let game := toUpper a
      let st2 := { st with subscriptions := GoMap.delete st.subscriptions (getSubKey chatID game) }
      some (st2, [Effect.writeFile (saveData st2), Effect.send "🗑 Category removed."])

/-! ## Configuration -/

/-- The test `unicode.IsSpace`. -/
def isSpace (c : Char) : Bool :=
  let n := c.toNat
  (9 ≤ n && n ≤ 13) || n = 32 || n = 0x85 || n = 0xA0 || n = 0x1680
    || (0x2000 ≤ n && n ≤ 0x200A) || n = 0x2028 || n = 0x2029 || n = 0x202F
    || n = 0x205F || n = 0x3000

/-- Removes the leading and trailing characters that satisfy `p`. -/
def trimBoth (p : Char → Bool) (l : List Char) : List Char :=
  ((l.dropWhile p).reverse.dropWhile p).reverse

/-- The function `strings.TrimSpace`. -/
def trimSpace (s : String) : String := ⟨trimBoth isSpace s.data⟩

/-- The function `strings.Trim`. -/
def trim (s cutset : String) : String := ⟨trimBoth (fun c => cutset.data.contains c) s.data⟩

/-- Removes one trailing carriage return (`dropCR` of `bufio`). -/
def dropCR (l : List Char) : List Char :=
  if l.getLast? = some '\r' then l.dropLast else l

/-- The tokens of `bufio.ScanLines`: `cur` is the line read so far. -/
def scanLinesFrom : List Char → List Char → List String
  | [], cur => if cur.isEmpty then [] else [⟨dropCR cur⟩]
  | c :: rest, cur =>
    if c = '\n' then ⟨dropCR cur⟩ :: scanLinesFrom rest []
    else scanLinesFrom rest (cur ++ [c])

/-- The lines a `bufio.Scanner` yields for a text, each within the buffer of
the scanner. -/
def scanLines (text : String) : List String := scanLinesFrom text.data []

/-- Whether `sub` occurs in `s` (`strings.Contains`). -/
def contains (s sub : String) : Bool := decide (sub.data <:+: s.data)

/-- The body of the loop of `loadConfigs` for one line: the table and the
current section before and after. -/
def configLine (acc : GoMap String GameConfig × String) (raw : String) :
    GoMap String GameConfig × String :=
  let ln := trimSpace raw
  if startsWith ln "[" then
    let cur := toUpper (trim ln "[]")
    (GoMap.store acc.1 cur { Message := "Game on!", Time := 0 }, cur)
  else if acc.2 ≠ "" ∧ contains ln "=" = true then
    match GoMap.load acc.1 acc.2 with
    | some cfg =>
      let k := trimSpace ⟨ln.data.takeWhile (fun c => decide (c ≠ '='))⟩
      let v := trimSpace ⟨(ln.data.dropWhile (fun c => decide (c ≠ '='))).drop 1⟩
      let cfg1 : GameConfig := if k = "msg" then { cfg with Message := v } else cfg
      let cfg2 : GameConfig := if k = "time" then { cfg1 with Time := (atoi v).1 } else cfg1
      (GoMap.store acc.1 acc.2 cfg2, acc.2)
    | none => acc
  else acc

/-- The function `loadConfigs`; `file` is the text of the config file, `none`
when it cannot be opened. -/
def loadConfigs (file : Option String) (st : BotState) : BotState :=
  match file with
  | none => st
  | some text =>
    { st with gameConfigs := ((scanLines text).foldl configLine (st.gameConfigs, "")).1 }

/-! ## Notions used by the statements -/

/-- The subscribers stored under a key, none when the key is absent. -/
def subscribers (st : BotState) (key : String) : List UserSubscription :=
  (GoMap.load st.subscriptions key).getD []

/-- Number of entries of a list that carry the given user id. -/
def countID (l : List UserSubscription) (id : Int) : Nat :=
  l.countP (fun e => decide (e.ID = id))

/-- State after `/join` by `u` followed by `/join` by `v` on the same arguments. -/
def joinTwice (st : BotState) (chatID : Int) (args : List String) (u v : Sender) :
    BotState × List Effect :=
  handleJoin (handleJoin st chatID args u).1 chatID args v

/-- The commands that write to the subscription registry. -/
inductive Command where
  | join (chatID : Int) (args : List String) (sender : Sender)
  | leave (chatID : Int) (args : List String) (sender : Sender)
  | rmcat (chatID : Int) (args : List String) (sender : Sender)

/-- State after one command; a handler that fails at run time has changed
nothing. -/
def step (st : BotState) : Command → BotState
  | Command.join c a s => (handleJoin st c a s).1
  | Command.leave c a s => (handleLeave st c a s).1
  | Command.rmcat c a s =>
    match handleRmcat st c a s with
    | some r => r.1
    | none => st

/-- State after a sequence of commands. -/
def run (st : BotState) (cmds : List Command) : BotState := cmds.foldl step st

/-- Every list of the map holds each user id at most once. -/
def NoDupIDs (m : GoMap String (List UserSubscription)) : Prop :=
  ∀ e ∈ m, (e.2.map (fun u => u.ID)).Nodup

/-- The text that opens a mention link. -/
def mentionPattern : String := "<a href=\"tg://user?id="

/-- The entries `handleList` renders for a group: those whose key starts with
the decimal group id and a colon. -/
def groupEntries (st : BotState) (chatID : Int) : List (String × List UserSubscription) :=
  st.subscriptions.filter (fun e => startsWith e.1 (fmtInt chatID ++ ":"))

/-- The lines of one category in the listing: name, count, and the escaped
display names joined by ", ". -/
def listBlock (chatID : Int) (e : String × List UserSubscription) : String :=
  "\n🔹 <b>" ++ trimStart e.1 (fmtInt chatID ++ ":") ++ "</b> (" ++ fmtNat e.2.length ++ "): "
    ++ join (e.2.map (fun u => escapeString u.FirstName)) ", "

/-- Concatenation of strings. -/
def concat : List String → String
  | [] => ""
  | a :: rest => a ++ concat rest

/-- No `<` of the text is directly followed by `a`. -/
def NoLtA (l : List Char) : Prop := l.Chain' (fun x y => ¬ (x = '<' ∧ y = 'a'))

/-- Whether some `<` of the text is directly followed by `a`. -/
def hasLtA : List Char → Bool
  | [] => false
  | [_] => false
  | x :: y :: l => (decide (x = '<') && decide (y = 'a')) || hasLtA (y :: l)

/-- Value of a digit string read after `init`. -/
def digitsVal (l : List Char) (init : Nat) : Nat :=
  l.foldl (fun a c => a * 10 + (c.toNat - 48)) init

/-- A state a running process can hold: every map has each key once and every
user id is an `int64`. -/
structure BotState.Valid (st : BotState) : Prop where
  subsKeys : (st.subscriptions.map Prod.fst).Nodup
  banKeys : (st.banList.map Prod.fst).Nodup
  subIDs : ∀ e ∈ st.subscriptions, ∀ u ∈ e.2, isInt64 u.ID = true
  banIDs : ∀ e ∈ st.banList, isInt64 e.1 = true

/-- The delay a category has in the game-config table, 0 when it has no entry. -/
def configuredDelay (st : BotState) (game : String) : Int :=
  match GoMap.load st.gameConfigs game with
  | some c => c.Time
  | none => 0

/-- The message a category has in the game-config table, the fallback of
`handleGoPlay` when it has no entry. -/
def configuredMessage (st : BotState) (game : String) : String :=
  match GoMap.load st.gameConfigs game with
  | some c => c.Message
  | none => "Get ready!"

/-- The effective delay of `/goplay`, in the words of the specification: the
second argument when it parses as an integer, otherwise the configured delay of
the category. -/
def effectiveDelay (st : BotState) (game : String) (more : List String) : Int :=
  match more with
  | [] => configuredDelay st game
  | d :: _ => if (atoi d).2 = NumStatus.ok then (atoi d).1 else configuredDelay st game

/-- The texts a handler sends back to the chat, in order. -/
def replyTexts : List Effect → List String
  | [] => []
  | Effect.send t :: rest => t :: replyTexts rest
  | Effect.reply t :: rest => t :: replyTexts rest
  | _ :: rest => replyTexts rest

/-- Where a `/join` handler stands between its two accesses to the registry:
before `LoadOrStore`, after it with the list it got, or finished. -/
inductive JoinPhase where
  | start
  | loaded (list : List UserSubscription)
  | done
  deriving DecidableEq, Repr

/-- The next access of a `/join` handler to the registry.  Each call of a
`sync.Map` method is atomic; nothing orders the calls of two handlers. -/
def joinStep (key : String) (user : UserSubscription)
    (subs : GoMap String (List UserSubscription)) :
    JoinPhase → GoMap String (List UserSubscription) × JoinPhase
  | JoinPhase.start =>
    let r := GoMap.loadOrStore subs key []
    if r.2.any (fun u => decide (u.ID = user.ID)) then (r.1, JoinPhase.done)
    else (r.1, JoinPhase.loaded r.2)
  | JoinPhase.loaded list => (GoMap.store subs key (list ++ [user]), JoinPhase.done)
  | JoinPhase.done => (subs, JoinPhase.done)

/-- Two `/join` handlers on one key under a schedule: `true` lets the first
handler make its next access, `false` the second. -/
def raceJoins (key : String) (u1 u2 : UserSubscription) :
    List Bool → GoMap String (List UserSubscription) × JoinPhase × JoinPhase →
    GoMap String (List UserSubscription) × JoinPhase × JoinPhase
  | [], c => c
  | true :: rest, (subs, p1, p2) =>
    raceJoins key u1 u2 rest ((joinStep key u1 subs p1).1, (joinStep key u1 subs p1).2, p2)
  | false :: rest, (subs, p1, p2) =>
    raceJoins key u1 u2 rest ((joinStep key u2 subs p2).1, p1, (joinStep key u2 subs p2).2)

/-- State after `/join` followed by `/leave` by the same user on the same
arguments. -/
def joinThenLeave (st : BotState) (chatID : Int) (args : List String) (s : Sender) : BotState :=
  (handleLeave (handleJoin st chatID args s).1 chatID args s).1

/-! ## Upper-casing over the case table of Unicode

`strings.ToUpper` maps every rune through `unicode.ToUpper`, whose table belongs
to the Go library.  The functions below are `getSubKey` and the handlers that
go through it with that mapping as a parameter `table`; with `Char.toUpper` for
`table` they are the functions defined above. -/

/-- The function `strings.ToUpper` over the rune mapping `table`. -/
def toUpperBy (table : Char → Char) (s : String) : String := ⟨s.data.map table⟩

/-- The function `getSubKey` over the rune mapping `table`. -/
def getSubKeyBy (table : Char → Char) (chatID : Int) (game : String) : String :=
  fmtInt chatID ++ ":" ++ toUpperBy table game

/-- The function `getMentions` over the rune mapping `table`. -/
def getMentionsBy (table : Char → Char) (st : BotState) (chatID : Int) (game : String) :
    String :=
  let key := getSubKeyBy table chatID game
  match GoMap.load st.subscriptions key with
  | some list => join (mentionLoop list 0 []) ", "
  | none => join [] ", "

/-- The function `sendGame` over the rune mapping `table`. -/
def sendGameBy (table : Char → Char) (st : BotState) (chatID : Int) (game msg sender : String) :
    List Effect :=
  [Effect.announce chatID
    ("🎮 <b>" ++ escapeString game ++ "</b>\n" ++ escapeString msg ++ "\n\nInvited by: "
      ++ escapeString sender ++ "\n\n🔔 " ++ getMentionsBy table st chatID game)]

/-- The function `handleJoin` over the rune mapping `table`. -/
def handleJoinBy (table : Char → Char) (st : BotState) (chatID : Int) (args : List String)
    (sender : Sender) : BotState × List Effect :=
  match args with
  | [] => (st, [Effect.send "❌ Usage: /join <game>"])
  | a :: _ =>
    let game := toUpperBy table a
    let key := getSubKeyBy table chatID game
    let user : UserSubscription := { ID := sender.ID, FirstName := sender.FirstName }
    let r := GoMap.loadOrStore st.subscriptions key []
    if r.2.any (fun u => decide (u.ID = user.ID)) then
      ({ st with subscriptions := r.1 }, [Effect.reply "✨ Already in list."])
    else
      let st2 := { st with subscriptions := GoMap.store r.1 key (r.2 ++ [user]) }
      (st2, [Effect.writeFile (saveData st2), Effect.reply ("✅ Joined " ++ game)])

/-- The function `handleLeave` over the rune mapping `table`. -/
def handleLeaveBy (table : Char → Char) (st : BotState) (chatID : Int) (args : List String)
    (sender : Sender) : BotState × List Effect :=
  match args with
  | [] => (st, [Effect.send "❌ Usage: /leave <game>"])
  | a :: _ =>
    let game := toUpperBy table a
    let key := getSubKeyBy table chatID game
    match GoMap.load st.subscriptions key with
    | some list =>
      let newList := list.filter (fun u => decide (u.ID ≠ sender.ID))
      let st2 := { st with subscriptions := GoMap.store st.subscriptions key newList }
      (st2, [Effect.writeFile (saveData st2), Effect.reply ("🗑 Left " ++ game)])
    | none => (st, [Effect.reply ("🗑 Left " ++ game)])

/-- The function `handleGameNow` over the rune mapping `table`. -/
def handleGameNowBy (table : Char → Char) (st : BotState) (chatID : Int) (args : List String)
    (sender : Sender) : List Effect :=
  match args with
  | [] => [Effect.send "❌ /gamenow <game>"]
  | a :: _ => sendGameBy table st chatID (toUpperBy table a) "Starting NOW!" sender.Username

/-- The handler of `/rmcat` over the rune mapping `table`. -/
def handleRmcatBy (table : Char → Char) (st : BotState) (chatID : Int) (args : List String)
    (sender : Sender) : Option (BotState × List Effect) :=
  if !isAdmin st sender.ID then some (st, [])
  else
    match args with
    | [] => none
    | a :: _ =>
      let game := toUpperBy table a
      let st2 :=
        { st with subscriptions := GoMap.delete st.subscriptions (getSubKeyBy table chatID game) }
      some (st2, [Effect.writeFile (saveData st2), Effect.send "🗑 Category removed."])

/-- A part of the upper-case mapping of Unicode: the letters of Basic Latin,
of Latin-1 and of the Cyrillic block that have an upper-case form 32 or 80
places below. -/
def upperSample (c : Char) : Char :=
  if 97 ≤ c.toNat ∧ c.toNat ≤ 122 then Char.ofNat (c.toNat - 32)
  else if 224 ≤ c.toNat ∧ c.toNat ≤ 254 ∧ c.toNat ≠ 247 then Char.ofNat (c.toNat - 32)
  else if 1072 ≤ c.toNat ∧ c.toNat ≤ 1103 then Char.ofNat (c.toNat - 32)
  else if 1104 ≤ c.toNat ∧ c.toNat ≤ 1119 then Char.ofNat (c.toNat - 80)
  else c

/-! # Theorems -/

/-! ## Facts about maps -/

theorem GoMap.load_store_self {α β : Type} [DecidableEq α] (m : GoMap α β) (k : α) (v : β) :
    GoMap.load (GoMap.store m k v) k = some v := by
  induction m with
  | nil => simp [GoMap.store, GoMap.load]
  | cons e m ih =>
    obtain ⟨k', v'⟩ := e
    by_cases h : k' = k
    · simp [GoMap.store, GoMap.load, h]
    · simp [GoMap.store, GoMap.load, h, ih]

theorem GoMap.load_store_ne {α β : Type} [DecidableEq α] (m : GoMap α β) (k k2 : α) (v : β)
    (h : k ≠ k2) : GoMap.load (GoMap.store m k v) k2 = GoMap.load m k2 := by
  induction m with
  | nil => simp [GoMap.store, GoMap.load, h]
  | cons e m ih =>
    obtain ⟨k', v'⟩ := e
    by_cases h1 : k' = k
    · subst h1
      simp [GoMap.store, GoMap.load, h]
    · simp [GoMap.store, GoMap.load, h1, ih]

theorem GoMap.store_of_load {α β : Type} [DecidableEq α] (m : GoMap α β) (k : α) (v : β)
    (h : GoMap.load m k = some v) : GoMap.store m k v = m := by
  induction m with
  | nil => simp [GoMap.load] at h
  | cons e m ih =>
    obtain ⟨k', v'⟩ := e
    by_cases h1 : k' = k
    · subst h1
      simp [GoMap.load] at h
      simp [GoMap.store, h]
    · simp [GoMap.load, h1] at h
      simp [GoMap.store, h1, ih h]

theorem GoMap.store_store {α β : Type} [DecidableEq α] (m : GoMap α β) (k : α) (v w : β) :
    GoMap.store (GoMap.store m k v) k w = GoMap.store m k w := by
  induction m with
  | nil => simp [GoMap.store]
  | cons e m ih =>
    obtain ⟨k', v'⟩ := e
    by_cases h1 : k' = k
    · simp [GoMap.store, h1]
    · simp [GoMap.store, h1, ih]

/-! ## Joining -/

theorem any_iff_countID_pos (l : List UserSubscription) (id : Int) :
    l.any (fun e => decide (e.ID = id)) = true ↔ 0 < countID l id := by
  simp [countID, List.countP_pos_iff]

theorem handleJoin_present (st : BotState) (chatID : Int) (a : String) (rest : List String)
    (s : Sender) (l : List UserSubscription)
    (hl : GoMap.load st.subscriptions (getSubKey chatID (toUpper a)) = some l)
    (hin : 0 < countID l s.ID) :
    handleJoin st chatID (a :: rest) s = (st, [Effect.reply "✨ Already in list."]) := by
  have hany := (any_iff_countID_pos l s.ID).2 hin
  simp only [handleJoin, GoMap.loadOrStore, hl, hany, if_true]

theorem handleJoin_fresh (st : BotState) (chatID : Int) (a : String) (rest : List String)
    (s : Sender) (hin : countID (subscribers st (getSubKey chatID (toUpper a))) s.ID = 0) :
    (handleJoin st chatID (a :: rest) s).1.subscriptions
      = GoMap.store st.subscriptions (getSubKey chatID (toUpper a))
          (subscribers st (getSubKey chatID (toUpper a)) ++ [⟨s.ID, s.FirstName⟩]) := by
  have hany : ∀ l, countID l s.ID = 0 → l.any (fun e => decide (e.ID = s.ID)) = false := by
    intro l h
    by_contra hc
    have := (any_iff_countID_pos l s.ID).1 (by simpa using hc)
    omega
  unfold subscribers at hin ⊢
  cases hl : GoMap.load st.subscriptions (getSubKey chatID (toUpper a)) with
  | none =>
    simp [handleJoin, GoMap.loadOrStore, hl, GoMap.store_store]
  | some l =>
    rw [hl] at hin
    simp only [Option.getD] at hin
    have h2 := hany l hin
    simp [handleJoin, GoMap.loadOrStore, hl, h2]

theorem countID_append_single (l : List UserSubscription) (u : UserSubscription) :
    countID (l ++ [u]) u.ID = countID l u.ID + 1 := by
  simp [countID, List.countP_append]

/-- C1 (as amended): when the list of the category holds the id of the user
at most once, two `/join` calls in a row by that id leave exactly one entry with
the id; and from every state the second call replies "Already in list" and
leaves the whole state as the first call left it, whatever display name the
second call carries. -/
theorem handleJoin_twice (st : BotState) (chatID : Int) (a : String) (rest : List String)
    (u v : Sender) (hv : v.ID = u.ID) :
    (joinTwice st chatID (a :: rest) u v).1 = (handleJoin st chatID (a :: rest) u).1
    ∧ (joinTwice st chatID (a :: rest) u v).2 = [Effect.reply "✨ Already in list."]
    ∧ (countID (subscribers st (getSubKey chatID (toUpper a))) u.ID ≤ 1 →
        countID (subscribers (joinTwice st chatID (a :: rest) u v).1
          (getSubKey chatID (toUpper a))) u.ID = 1) := by
  have key : ∃ l, GoMap.load (handleJoin st chatID (a :: rest) u).1.subscriptions
        (getSubKey chatID (toUpper a)) = some l ∧ 0 < countID l u.ID
      ∧ (countID (subscribers st (getSubKey chatID (toUpper a))) u.ID ≤ 1 →
          countID l u.ID = 1) := by
    by_cases hin : countID (subscribers st (getSubKey chatID (toUpper a))) u.ID = 0
    · refine ⟨subscribers st (getSubKey chatID (toUpper a)) ++ [⟨u.ID, u.FirstName⟩], ?_, ?_, ?_⟩
      · rw [handleJoin_fresh st chatID a rest u hin]
        exact GoMap.load_store_self _ _ _
      · have := countID_append_single (subscribers st (getSubKey chatID (toUpper a)))
          ⟨u.ID, u.FirstName⟩
        simp only at this
        omega
      · intro _
        have := countID_append_single (subscribers st (getSubKey chatID (toUpper a)))
          ⟨u.ID, u.FirstName⟩
        simp only at this
        omega
    · cases hl : GoMap.load st.subscriptions (getSubKey chatID (toUpper a)) with
      | none => simp [subscribers, hl, countID] at hin
      | some l =>
        have hl2 : subscribers st (getSubKey chatID (toUpper a)) = l := by
          simp [subscribers, hl]
        rw [hl2] at hin ⊢
        have hpos : 0 < countID l u.ID := Nat.pos_of_ne_zero hin
        rw [handleJoin_present st chatID a rest u l hl hpos]
        exact ⟨l, hl, hpos, fun h => by omega⟩
  obtain ⟨l, hl, hpos, hone⟩ := key
  have hsecond := handleJoin_present (handleJoin st chatID (a :: rest) u).1 chatID a rest v l hl
    (by rw [hv]; exact hpos)
  refine ⟨?_, ?_, ?_⟩
  · simp only [joinTwice, hsecond]
  · simp only [joinTwice, hsecond]
  · intro h
    simp only [joinTwice, hsecond, subscribers, hl, Option.getD]
    exact hone h

/-- C1, witness: a user joins a category that two others already hold, twice,
under two display names. -/
theorem handleJoin_twice_witness :
    (joinTwice ⟨[("1:DOTA2", [⟨5, "Eve"⟩, ⟨6, "Dan"⟩])], [], [], 0⟩ 1 ["dota2"]
        ⟨7, "Ann", "ann"⟩ ⟨7, "Anna", "ann"⟩).1
      = (handleJoin ⟨[("1:DOTA2", [⟨5, "Eve"⟩, ⟨6, "Dan"⟩])], [], [], 0⟩ 1 ["dota2"]
        ⟨7, "Ann", "ann"⟩).1
    ∧ (joinTwice ⟨[("1:DOTA2", [⟨5, "Eve"⟩, ⟨6, "Dan"⟩])], [], [], 0⟩ 1 ["dota2"]
        ⟨7, "Ann", "ann"⟩ ⟨7, "Anna", "ann"⟩).2 = [Effect.reply "✨ Already in list."]
    ∧ countID (subscribers (joinTwice ⟨[("1:DOTA2", [⟨5, "Eve"⟩, ⟨6, "Dan"⟩])], [], [], 0⟩ 1
        ["dota2"] ⟨7, "Ann", "ann"⟩ ⟨7, "Anna", "ann"⟩).1 (getSubKey 1 (toUpper "dota2"))) 7 = 1 :=
  let h := handleJoin_twice ⟨[("1:DOTA2", [⟨5, "Eve"⟩, ⟨6, "Dan"⟩])], [], [], 0⟩ 1 "dota2" []
    ⟨7, "Ann", "ann"⟩ ⟨7, "Anna", "ann"⟩ rfl
  ⟨h.1, h.2.1, h.2.2 (by decide)⟩

/-- C1, counterexample: a list that already holds the id twice (as a store file
can supply) still holds it twice after two `/join` calls. -/
theorem handleJoin_twice_duplicates :
    countID (subscribers (joinTwice ⟨[("1:DOTA2", [⟨7, "Ann"⟩, ⟨7, "Anna"⟩])], [], [], 0⟩ 1
        ["dota2"] ⟨7, "Ann", "ann"⟩ ⟨7, "Ann", "ann"⟩).1 (getSubKey 1 (toUpper "dota2"))) 7 ≠ 1 := by
  decide

/-! ## The no-duplicate invariant -/

theorem GoMap.mem_of_load {α β : Type} [DecidableEq α] (m : GoMap α β) (k : α) (v : β)
    (h : GoMap.load m k = some v) : (k, v) ∈ m := by
  induction m with
  | nil => simp [GoMap.load] at h
  | cons e m ih =>
    obtain ⟨k', v'⟩ := e
    by_cases h1 : k' = k
    · subst h1
      simp [GoMap.load] at h
      simp [h]
    · simp [GoMap.load, h1] at h
      exact List.mem_cons_of_mem _ (ih h)

theorem GoMap.mem_store {α β : Type} [DecidableEq α] (m : GoMap α β) (k : α) (v : β)
    (e : α × β) (h : e ∈ GoMap.store m k v) : e ∈ m ∨ e = (k, v) := by
  induction m with
  | nil =>
    simp [GoMap.store] at h
    exact Or.inr h
  | cons e' m ih =>
    obtain ⟨k', v'⟩ := e'
    by_cases h1 : k' = k
    · simp [GoMap.store, h1] at h
      rcases h with h | h
      · exact Or.inr h
      · exact Or.inl (List.mem_cons_of_mem _ h)
    · simp [GoMap.store, h1] at h
      rcases h with h | h
      · exact Or.inl (by simp [h])
      · rcases ih h with h2 | h2
        · exact Or.inl (List.mem_cons_of_mem _ h2)
        · exact Or.inr h2

theorem NoDupIDs.store {m : GoMap String (List UserSubscription)} (h : NoDupIDs m)
    (k : String) (l : List UserSubscription) (hl : (l.map (fun u => u.ID)).Nodup) :
    NoDupIDs (GoMap.store m k l) := by
  intro e he
  rcases GoMap.mem_store m k l e he with h1 | h1
  · exact h e h1
  · subst h1
    exact hl

theorem NoDupIDs.delete {m : GoMap String (List UserSubscription)} (h : NoDupIDs m)
    (k : String) : NoDupIDs (GoMap.delete m k) := by
  intro e he
  exact h e (List.mem_of_mem_filter he)

theorem handleJoin_noDup (st : BotState) (c : Int) (args : List String) (s : Sender)
    (h : NoDupIDs st.subscriptions) : NoDupIDs (handleJoin st c args s).1.subscriptions := by
  cases args with
  | nil => simpa [handleJoin] using h
  | cons a rest =>
    simp only [handleJoin, GoMap.loadOrStore]
    cases hl : GoMap.load st.subscriptions (getSubKey c (toUpper a)) with
    | none =>
      simp only [List.any_nil, Bool.false_eq_true, if_false, List.nil_append]
      exact (h.store _ [] (by simp)).store _ _ (by simp)
    | some l =>
      simp only
      split
      · exact h
      · rename_i hany
        refine h.store _ _ ?_
        have hl2 := h _ (GoMap.mem_of_load _ _ _ hl)
        simp only [List.map_append, List.map_cons, List.map_nil]
        rw [List.nodup_append]
        refine ⟨hl2, by simp, ?_⟩
        intro x hx hx2
        simp only [List.mem_singleton] at hx2
        subst hx2
        apply hany
        simp only [List.mem_map] at hx
        obtain ⟨w, hw, hw2⟩ := hx
        simp only [List.any_eq_true, decide_eq_true_eq]
        exact ⟨w, hw, hw2⟩

theorem handleLeave_noDup (st : BotState) (c : Int) (args : List String) (s : Sender)
    (h : NoDupIDs st.subscriptions) : NoDupIDs (handleLeave st c args s).1.subscriptions := by
  cases args with
  | nil => simpa [handleLeave] using h
  | cons a rest =>
    simp only [handleLeave]
    cases hl : GoMap.load st.subscriptions (getSubKey c (toUpper a)) with
    | none => exact h
    | some l =>
      refine h.store _ _ ?_
      have hl2 := h _ (GoMap.mem_of_load _ _ _ hl)
      exact (List.filter_sublist l).map _ |>.nodup hl2

theorem handleRmcat_noDup (st : BotState) (c : Int) (args : List String) (s : Sender)
    (h : NoDupIDs st.subscriptions) (r : BotState × List Effect)
    (hr : handleRmcat st c args s = some r) : NoDupIDs r.1.subscriptions := by
  unfold handleRmcat at hr
  split at hr
  · simp only [Option.some.injEq] at hr
    subst hr
    exact h
  · cases args with
    | nil => simp at hr
    | cons a rest =>
      simp only [Option.some.injEq] at hr
      subst hr
      exact h.delete _

theorem step_noDup (st : BotState) (cmd : Command) (h : NoDupIDs st.subscriptions) :
    NoDupIDs (step st cmd).subscriptions := by
  cases cmd with
  | join c a s => exact handleJoin_noDup st c a s h
  | leave c a s => exact handleLeave_noDup st c a s h
  | rmcat c a s =>
    simp only [step]
    cases hr : handleRmcat st c a s with
    | none => exact h
    | some r => exact handleRmcat_noDup st c a s h r hr

theorem run_noDup (cmds : List Command) (st : BotState) (h : NoDupIDs st.subscriptions) :
    NoDupIDs (run st cmds).subscriptions := by
  induction cmds generalizing st with
  | nil => exact h
  | cons cmd cmds ih => exact ih (step st cmd) (step_noDup st cmd h)

/-- C2: in every state reached from an empty registry by any sequence of
`/join`, `/leave` and `/rmcat` commands, every subscription list holds each user
id at most once. -/
theorem reachable_noDuplicateIDs (cmds : List Command) (bans : GoMap Int Bool)
    (configs : GoMap String GameConfig) (owner : Int) :
    ∀ e ∈ (run ⟨[], bans, configs, owner⟩ cmds).subscriptions,
      (e.2.map (fun u => u.ID)).Nodup :=
  run_noDup cmds ⟨[], bans, configs, owner⟩ (by intro e he; simp at he)

/-- C2, witness: after two users join and one leaves, the remaining list has
no repeated id. -/
theorem reachable_noDuplicateIDs_witness :
    (List.map (fun u => u.ID) [(⟨8, "Bob"⟩ : UserSubscription)]).Nodup :=
  reachable_noDuplicateIDs
    [Command.join 1 ["dota2"] ⟨7, "Ann", "ann"⟩, Command.join 1 ["DOTA2"] ⟨8, "Bob", "bob"⟩,
     Command.join 1 ["Dota2"] ⟨7, "Anna", "ann"⟩, Command.leave 1 ["dota2"] ⟨7, "Ann", "ann"⟩]
    [] [] 0 ("1:DOTA2", [⟨8, "Bob"⟩]) (by decide)

/-! ## Leaving -/

theorem filter_ne_of_absent (l : List UserSubscription) (id : Int)
    (h : ∀ u ∈ l, u.ID ≠ id) : l.filter (fun u => decide (u.ID ≠ id)) = l := by
  rw [List.filter_eq_self]
  intro u hu
  simpa using h u hu

/-- C3: `/leave` on a category that has no list, or whose list does not hold
the id of the sender, leaves the state as it was and ends with the normal
reply; the only other effect is the rewrite of the store file when the key
exists. -/
theorem handleLeave_absent (st : BotState) (chatID : Int) (a : String) (rest : List String)
    (s : Sender) (h : ∀ u ∈ subscribers st (getSubKey chatID (toUpper a)), u.ID ≠ s.ID) :
    (handleLeave st chatID (a :: rest) s).1 = st
    ∧ ((handleLeave st chatID (a :: rest) s).2 = [Effect.reply ("🗑 Left " ++ toUpper a)]
      ∨ (handleLeave st chatID (a :: rest) s).2
          = [Effect.writeFile (saveData st), Effect.reply ("🗑 Left " ++ toUpper a)]) := by
  cases hl : GoMap.load st.subscriptions (getSubKey chatID (toUpper a)) with
  | none => simp [handleLeave, hl]
  | some l =>
    have hl2 : subscribers st (getSubKey chatID (toUpper a)) = l := by
      simp [subscribers, hl]
    rw [hl2] at h
    have hst : ({ st with
        subscriptions := (GoMap.store st.subscriptions (getSubKey chatID (toUpper a)) l) }
        : BotState) = st := by
      rw [GoMap.store_of_load _ _ _ hl]
    simp only [handleLeave, hl, filter_ne_of_absent l s.ID h, hst, true_and]
    exact Or.inr trivial

/-- C3, witness: a user who never joined leaves a category two others hold. -/
theorem handleLeave_absent_witness :
    (handleLeave ⟨[("1:DOTA2", [⟨5, "Eve"⟩, ⟨6, "Dan"⟩])], [], [], 0⟩ 1 ["dota2"]
        ⟨7, "Ann", "ann"⟩).1 = ⟨[("1:DOTA2", [⟨5, "Eve"⟩, ⟨6, "Dan"⟩])], [], [], 0⟩ :=
  (handleLeave_absent ⟨[("1:DOTA2", [⟨5, "Eve"⟩, ⟨6, "Dan"⟩])], [], [], 0⟩ 1 "dota2" []
    ⟨7, "Ann", "ann"⟩ (by decide)).1

/-! ## Case normalization -/

/-- The functions over a rune mapping are, at `Char.toUpper`, the functions of
the development. -/
theorem by_ascii_table :
    toUpperBy Char.toUpper = toUpper
    ∧ getSubKeyBy Char.toUpper = getSubKey
    ∧ getMentionsBy Char.toUpper = getMentions
    ∧ sendGameBy Char.toUpper = sendGame
    ∧ handleJoinBy Char.toUpper = handleJoin
    ∧ handleLeaveBy Char.toUpper = handleLeave
    ∧ handleGameNowBy Char.toUpper = handleGameNow
    ∧ handleRmcatBy Char.toUpper = handleRmcat := by
  refine ⟨rfl, rfl, rfl, rfl, ?_, ?_, ?_, ?_⟩
  · funext st chatID args sender
    cases args <;> rfl
  · funext st chatID args sender
    cases args <;> rfl
  · funext st chatID args sender
    cases args <;> rfl
  · funext st chatID args sender
    cases args <;> rfl

/-- C4: whatever the upper-case mapping of runes, that of `unicode.ToUpper`
included, two category names with the same upper-casing give the same key, and
`/join`, `/leave`, `/rmcat`, `/gamenow` and the mention builder do the same
thing with either name. -/
theorem getSubKey_case (table : Char → Char) (st : BotState) (chatID : Int) (g1 g2 : String)
    (rest : List String) (s : Sender) (h : toUpperBy table g1 = toUpperBy table g2) :
    getSubKeyBy table chatID g1 = getSubKeyBy table chatID g2
    ∧ handleJoinBy table st chatID (g1 :: rest) s = handleJoinBy table st chatID (g2 :: rest) s
    ∧ handleLeaveBy table st chatID (g1 :: rest) s = handleLeaveBy table st chatID (g2 :: rest) s
    ∧ handleRmcatBy table st chatID (g1 :: rest) s = handleRmcatBy table st chatID (g2 :: rest) s
    ∧ handleGameNowBy table st chatID (g1 :: rest) s
        = handleGameNowBy table st chatID (g2 :: rest) s
    ∧ getMentionsBy table st chatID g1 = getMentionsBy table st chatID g2 := by
  refine ⟨?_, ?_, ?_, ?_, ?_, ?_⟩
  · simp only [getSubKeyBy, h]
  · simp only [handleJoinBy, h]
  · simp only [handleLeaveBy, h]
  · simp only [handleRmcatBy, h]
  · simp only [handleGameNowBy, h]
  · simp only [getMentionsBy, getSubKeyBy, h]

/-- C4, witness: "дота" and "ДОТА" under the Cyrillic part of the Unicode
mapping; a user who joined under the first name is found under the second. -/
theorem getSubKey_case_witness :
    getSubKeyBy upperSample (-1001) "дота" = getSubKeyBy upperSample (-1001) "ДОТА"
    ∧ handleJoinBy upperSample ⟨[("-1001:ДОТА", [⟨7, "Ann"⟩])], [], [], 0⟩ (-1001) ["дота"]
        ⟨7, "Ann", "ann"⟩
      = handleJoinBy upperSample ⟨[("-1001:ДОТА", [⟨7, "Ann"⟩])], [], [], 0⟩ (-1001) ["ДОТА"]
        ⟨7, "Ann", "ann"⟩ :=
  ⟨(getSubKey_case upperSample ⟨[("-1001:ДОТА", [⟨7, "Ann"⟩])], [], [], 0⟩ (-1001) "дота" "ДОТА" []
      ⟨7, "Ann", "ann"⟩ (by decide)).1,
   (getSubKey_case upperSample ⟨[("-1001:ДОТА", [⟨7, "Ann"⟩])], [], [], 0⟩ (-1001) "дота" "ДОТА" []
      ⟨7, "Ann", "ann"⟩ (by decide)).2.1⟩

/-- The keys of the witness of C4, evaluated: "é" and "É" give one key, as do
"дота" and "ДОТА", and "dota2" and "DOTA2". -/
theorem getSubKeyBy_examples :
    getSubKeyBy upperSample 1 "é" = "1:É"
    ∧ getSubKeyBy upperSample 1 "É" = "1:É"
    ∧ getSubKeyBy upperSample (-1001) "дота" = "-1001:ДОТА"
    ∧ getSubKeyBy upperSample 1 "dota2" = getSubKeyBy upperSample 1 "DOTA2"
    ∧ handleJoinBy upperSample ⟨[("-1001:ДОТА", [⟨7, "Ann"⟩])], [], [], 0⟩ (-1001) ["дота"]
        ⟨7, "Ann", "ann"⟩
      = (⟨[("-1001:ДОТА", [⟨7, "Ann"⟩])], [], [], 0⟩, [Effect.reply "✨ Already in list."]) := by
  refine ⟨by decide, by decide, by decide, by decide, ?_⟩
  rfl

/-! ## The mention cap -/

theorem mentionLoop_eq (l : List UserSubscription) (i : Nat) (acc : List String) :
    mentionLoop l i acc = acc ++ (l.take (50 - i)).map mentionToken := by
  induction l generalizing i acc with
  | nil => simp [mentionLoop]
  | cons u rest ih =>
    by_cases h : i ≥ 50
    · have h0 : 50 - i = 0 := by omega
      simp [mentionLoop, h, h0]
    · have h1 : 50 - i = (50 - (i + 1)) + 1 := by omega
      simp only [mentionLoop, h, if_false, ih]
      rw [h1, List.take_succ_cons, List.map_cons, List.append_assoc, List.singleton_append]

theorem mentionLoop_length (l : List UserSubscription) :
    (mentionLoop l 0 []).length = min l.length 50 := by
  rw [mentionLoop_eq]
  simp [Nat.min_comm]

/-- C5: whatever the upper-case mapping of runes, `getMentions` is the tokens
of the first `min n 50` subscribers of the list stored under the key, in list
order, joined by ", "; the token of a subscriber is the link to the decimal user
id around the HTML-escaped display name; the loop collects `min n 50` tokens;
an absent category gives the empty string. -/
theorem getMentions_cap (table : Char → Char) (st : BotState) (chatID : Int) (game : String) :
    getMentionsBy table st chatID game
      = join (((subscribers st (getSubKeyBy table chatID game)).take 50).map
          (fun u => "<a href=\"tg://user?id=" ++ fmtInt u.ID ++ "\">"
            ++ escapeString u.FirstName ++ "</a>")) ", "
    ∧ (mentionLoop (subscribers st (getSubKeyBy table chatID game)) 0 []).length
      = min (subscribers st (getSubKeyBy table chatID game)).length 50
    ∧ (GoMap.load st.subscriptions (getSubKeyBy table chatID game) = none →
        getMentionsBy table st chatID game = "") := by
  have htok : (fun u : UserSubscription => "<a href=\"tg://user?id=" ++ fmtInt u.ID ++ "\">"
      ++ escapeString u.FirstName ++ "</a>") = mentionToken := rfl
  refine ⟨?_, mentionLoop_length _, ?_⟩
  · rw [htok]
    cases hl : GoMap.load st.subscriptions (getSubKeyBy table chatID game) with
    | none => simp [getMentionsBy, subscribers, hl]
    | some l => simp [getMentionsBy, subscribers, hl, mentionLoop_eq]
  · intro hl
    simp [getMentionsBy, hl, join]

/-- C5, witness: a category of 75 subscribers with the ids 0 to 74 gives the
tokens of the ids 0 to 49, and 50 of them. -/
theorem getMentions_cap_witness :
    getMentions ⟨[("1:DOTA2", (List.range 75).map (fun i => ⟨Int.ofNat i, "u"⟩))], [], [], 0⟩
        1 "dota2"
      = join ((List.range 50).map
          (fun i => "<a href=\"tg://user?id=" ++ fmtNat i ++ "\">" ++ "u" ++ "</a>")) ", "
    ∧ (mentionLoop (subscribers
        ⟨[("1:DOTA2", (List.range 75).map (fun i => ⟨Int.ofNat i, "u"⟩))], [], [], 0⟩
        "1:DOTA2") 0 []).length = 50 := by
  have h := getMentions_cap Char.toUpper
    ⟨[("1:DOTA2", (List.range 75).map (fun i => ⟨Int.ofNat i, "u"⟩))], [], [], 0⟩ 1 "dota2"
  have hkey : getSubKeyBy Char.toUpper 1 "dota2" = "1:DOTA2" := by decide
  have hsub : subscribers
      ⟨[("1:DOTA2", (List.range 75).map (fun i => ⟨Int.ofNat i, "u"⟩))], [], [], 0⟩ "1:DOTA2"
      = (List.range 75).map (fun i => ⟨Int.ofNat i, "u"⟩) := by
    simp [subscribers, GoMap.load]
  have htake : List.take 50 (List.range 75) = List.range 50 := by decide
  have hesc : escapeString "u" = "u" := by decide
  rw [hkey, hsub] at h
  constructor
  · have h1 := h.1
    rw [← List.map_take, htake, List.map_map] at h1
    exact h1.trans (by simp only [Function.comp_def, hesc, fmtInt])
  · have h2 := h.2.1
    rw [hsub, h2]
    simp

/-- The mention string of a category of two, evaluated: the decimal id, also a
negative one, and the escaped display name stand in each token. -/
theorem getMentions_example :
    getMentions ⟨[("1:DOTA2", [⟨5, "Eve"⟩, ⟨-6, "<Dan & \"Co\">"⟩])], [], [], 0⟩ 1 "dota2"
      = "<a href=\"tg://user?id=5\">Eve</a>, "
        ++ "<a href=\"tg://user?id=-6\">&lt;Dan &amp; &#34;Co&#34;&gt;</a>"
    ∧ getMentions ⟨[("1:DOTA2", [⟨5, "Eve"⟩])], [], [], 0⟩ 1 "pubg" = "" := by
  decide

/-! ## The listing never mentions -/

theorem noLtA_iff (l : List Char) : NoLtA l ↔ hasLtA l = false := by
  unfold NoLtA
  induction l with
  | nil => simp [hasLtA]
  | cons x l ih =>
    cases l with
    | nil => simp [hasLtA]
    | cons y l =>
      rw [List.chain'_cons, ih]
      simp [hasLtA]

theorem noLtA_of_noA (l : List Char) (h : ∀ c ∈ l, c ≠ 'a') : NoLtA l := by
  unfold NoLtA
  induction l with
  | nil => exact List.chain'_nil
  | cons x l ih =>
    rw [List.chain'_cons']
    refine ⟨?_, ih (fun c hc => h c (List.mem_cons_of_mem _ hc))⟩
    intro y hy hxy
    exact h y (List.mem_cons_of_mem _ (List.mem_of_mem_head? hy)) hxy.2

theorem noLtA_of_noLt (l : List Char) (h : ∀ c ∈ l, c ≠ '<') : NoLtA l := by
  unfold NoLtA
  induction l with
  | nil => exact List.chain'_nil
  | cons x l ih =>
    rw [List.chain'_cons']
    refine ⟨?_, ih (fun c hc => h c (List.mem_cons_of_mem _ hc))⟩
    intro y _ hxy
    exact h x (List.mem_cons_self _ _) hxy.1

theorem noLtA_append_noA (l1 l2 : List Char) (h1 : NoLtA l1) (h2 : ∀ c ∈ l2, c ≠ 'a') :
    NoLtA (l1 ++ l2) := by
  unfold NoLtA
  rw [List.chain'_append]
  refine ⟨h1, noLtA_of_noA l2 h2, ?_⟩
  intro x _ y hy hxy
  exact h2 y (List.mem_of_mem_head? hy) hxy.2

theorem noLtA_append_noLt (l1 l2 : List Char) (h1 : NoLtA l1)
    (hl : l1.getLast? ≠ some '<') (h2 : ∀ c ∈ l2, c ≠ '<') :
    NoLtA (l1 ++ l2) ∧ (l1 ++ l2).getLast? ≠ some '<' := by
  constructor
  · unfold NoLtA
    rw [List.chain'_append]
    refine ⟨h1, noLtA_of_noLt l2 h2, ?_⟩
    intro x hx y _ hxy
    apply hl
    rw [← hxy.1]
    exact hx
  · rw [List.getLast?_append]
    cases h : l2.getLast? with
    | none => simpa using hl
    | some c =>
      intro hc
      simp only [Option.or_some, Option.some.injEq] at hc
      subst hc
      exact h2 _ (List.mem_of_mem_getLast? h) rfl

theorem digitChar_isDigit (d : Nat) : 48 ≤ (digitChar d).toNat ∧ (digitChar d).toNat ≤ 57 := by
  unfold digitChar
  split <;> decide

theorem natDigits_isDigit (fuel n : Nat) (acc : List Char) (c : Char)
    (hc : c ∈ natDigits fuel n acc) : c ∈ acc ∨ (48 ≤ c.toNat ∧ c.toNat ≤ 57) := by
  induction fuel generalizing n acc with
  | zero => exact Or.inl hc
  | succ fuel ih =>
    simp only [natDigits] at hc
    split at hc
    · rcases List.mem_cons.1 hc with h | h
      · exact Or.inr (h ▸ digitChar_isDigit _)
      · exact Or.inl h
    · rcases ih _ _ hc with h | h
      · rcases List.mem_cons.1 h with h | h
        · exact Or.inr (h ▸ digitChar_isDigit _)
        · exact Or.inl h
      · exact Or.inr h

theorem fmtNat_isDigit (n : Nat) (c : Char) (hc : c ∈ (fmtNat n).data) :
    48 ≤ c.toNat ∧ c.toNat ≤ 57 := by
  rcases natDigits_isDigit _ _ _ c hc with h | h
  · simp at h
  · exact h

theorem fmtInt_chars (n : Int) (c : Char) (hc : c ∈ (fmtInt n).data) :
    c = '-' ∨ (48 ≤ c.toNat ∧ c.toNat ≤ 57) := by
  cases n with
  | ofNat n => exact Or.inr (fmtNat_isDigit n c hc)
  | negSucc n =>
    simp only [fmtInt, String.data_append, List.mem_append] at hc
    rcases hc with h | h
    · left
      simpa using h
    · exact Or.inr (fmtNat_isDigit _ c h)

theorem toUpper_char_ne_a (c : Char) : Char.toUpper c ≠ 'a' := by
  unfold Char.toUpper
  simp only
  split
  · rename_i h
    obtain ⟨h1, h2⟩ := h
    generalize c.toNat = n at h1 h2
    simp only [ge_iff_le] at h1
    interval_cases n <;> decide
  · rename_i h
    intro hc
    apply h
    subst hc
    decide

theorem digit_ne_a (c : Char) (h : 48 ≤ c.toNat ∧ c.toNat ≤ 57) : c ≠ 'a' := by
  intro hc
  subst hc
  revert h
  decide

theorem getSubKey_noA (g : Int) (name : String) (c : Char)
    (hc : c ∈ (getSubKey g name).data) : c ≠ 'a' := by
  simp only [getSubKey, toUpper, String.data_append, List.mem_append, List.mem_map] at hc
  rcases hc with (h | h) | h
  · rcases fmtInt_chars g c h with h1 | h1
    · subst h1
      decide
    · exact digit_ne_a c h1
  · have : c = ':' := by simpa using h
    subst this
    decide
  · obtain ⟨x, _, hx⟩ := h
    rw [← hx]
    exact toUpper_char_ne_a x

theorem trimStart_mem (k p : String) (c : Char) (hc : c ∈ (trimStart k p).data) :
    c ∈ k.data := by
  unfold trimStart at hc
  split at hc
  · exact List.mem_of_mem_drop hc
  · exact hc

theorem escapeChar_noLt (x c : Char) (hc : c ∈ escapeChar x) : c ≠ '<' := by
  unfold escapeChar at hc
  split_ifs at hc with h1 h2 h3 h4 h5
  · intro h
    subst h
    revert hc
    decide
  · intro h
    subst h
    revert hc
    decide
  · intro h
    subst h
    revert hc
    decide
  · intro h
    subst h
    revert hc
    decide
  · intro h
    subst h
    revert hc
    decide
  · simp only [List.mem_singleton] at hc
    subst hc
    exact h3

theorem escapeString_noLt (s : String) (c : Char) (hc : c ∈ (escapeString s).data) :
    c ≠ '<' := by
  simp only [escapeString, List.mem_flatMap] at hc
  obtain ⟨x, _, hx⟩ := hc
  exact escapeChar_noLt x c hx

theorem join_mem (l : List String) (sep : String) (c : Char) (hc : c ∈ (join l sep).data) :
    (∃ s ∈ l, c ∈ s.data) ∨ c ∈ sep.data := by
  induction l with
  | nil => simp [join] at hc
  | cons a rest ih =>
    cases rest with
    | nil =>
      simp only [join] at hc
      exact Or.inl ⟨a, by simp, hc⟩
    | cons b rest =>
      simp only [join, String.data_append, List.mem_append] at hc
      rcases hc with (h | h) | h
      · exact Or.inl ⟨a, by simp, h⟩
      · exact Or.inr h
      · rcases ih h with ⟨s1, hs1, hs2⟩ | h2
        · exact Or.inl ⟨s1, List.mem_cons_of_mem _ hs1, hs2⟩
        · exact Or.inr h2

theorem names_noLt (l : List UserSubscription) (c : Char)
    (hc : c ∈ (join (l.map (fun u => escapeString u.FirstName)) ", ").data) : c ≠ '<' := by
  rcases join_mem _ _ c hc with ⟨s1, hs1, hs2⟩ | h
  · simp only [List.mem_map] at hs1
    obtain ⟨u, _, hu⟩ := hs1
    subst hu
    exact escapeString_noLt _ c hs2
  · intro h1
    subst h1
    revert h
    decide

theorem listStep_eq (chatID : Int) (acc : String × Bool) (e : String × List UserSubscription) :
    listStep (fmtInt chatID ++ ":") acc e
      = if startsWith e.1 (fmtInt chatID ++ ":") then (acc.1 ++ listBlock chatID e, true)
        else acc := by
  unfold listStep listBlock
  split
  · simp only [String.append_assoc, Prod.mk.injEq, and_true]
    rfl
  · rfl

theorem foldl_listStep (chatID : Int) (l : List (String × List UserSubscription))
    (acc : String × Bool) :
    l.foldl (listStep (fmtInt chatID ++ ":")) acc
      = (acc.1 ++ concat ((l.filter (fun e => startsWith e.1 (fmtInt chatID ++ ":"))).map
            (listBlock chatID)),
          acc.2 || !(l.filter (fun e => startsWith e.1 (fmtInt chatID ++ ":"))).isEmpty) := by
  induction l generalizing acc with
  | nil => simp [concat]
  | cons e l ih =>
    rw [List.foldl_cons, ih, listStep_eq]
    by_cases h : startsWith e.1 (fmtInt chatID ++ ":") = true
    · simp [h, concat, String.append_assoc]
    · simp [h]

theorem listBlock_safe (chatID : Int) (e : String × List UserSubscription) (acc : List Char)
    (hkey : ∀ c ∈ e.1.data, c ≠ 'a') (h1 : NoLtA acc) :
    NoLtA (acc ++ (listBlock chatID e).data)
      ∧ (acc ++ (listBlock chatID e).data).getLast? ≠ some '<' := by
  have hX : ∀ c ∈ ("\n🔹 <b>" ++ trimStart e.1 (fmtInt chatID ++ ":") ++ "</b> ("
      ++ fmtNat e.2.length ++ "): ").data, c ≠ 'a' := by
    intro c hc
    simp only [String.data_append, List.mem_append] at hc
    rcases hc with (((h | h) | h) | h) | h
    · intro hc
      subst hc
      revert h
      decide
    · exact hkey c (trimStart_mem _ _ c h)
    · intro hc
      subst hc
      revert h
      decide
    · exact digit_ne_a c (fmtNat_isDigit _ c h)
    · intro hc
      subst hc
      revert h
      decide
  have h2 := noLtA_append_noA acc _ h1 hX
  have h3 : (acc ++ ("\n🔹 <b>" ++ trimStart e.1 (fmtInt chatID ++ ":") ++ "</b> ("
      ++ fmtNat e.2.length ++ "): ").data).getLast? ≠ some '<' := by
    have hC : "): ".data.getLast? = some ' ' := by decide
    rw [String.data_append, List.getLast?_append, List.getLast?_append, hC]
    simp only [Option.or]
    decide
  have h4 := noLtA_append_noLt _ _ h2 h3 (names_noLt e.2)
  have h5 : acc ++ (listBlock chatID e).data
      = (acc ++ ("\n🔹 <b>" ++ trimStart e.1 (fmtInt chatID ++ ":") ++ "</b> ("
          ++ fmtNat e.2.length ++ "): ").data)
        ++ (join (e.2.map (fun u => escapeString u.FirstName)) ", ").data := by
    simp only [listBlock, String.data_append, List.append_assoc]
  rw [h5]
  exact h4

theorem concat_safe (chatID : Int) (l : List (String × List UserSubscription))
    (hkeys : ∀ e ∈ l, ∀ c ∈ e.1.data, c ≠ 'a') (acc : List Char) (h1 : NoLtA acc) :
    NoLtA (acc ++ (concat (l.map (listBlock chatID))).data) := by
  induction l generalizing acc with
  | nil => simpa [concat] using h1
  | cons e l ih =>
    simp only [List.map_cons, concat, String.data_append, ← List.append_assoc]
    apply ih (fun e1 he1 => hkeys e1 (List.mem_cons_of_mem _ he1))
    exact (listBlock_safe chatID e acc (hkeys e (List.mem_cons_self _ _)) h1).1

theorem handleList_eq (st : BotState) (chatID : Int) :
    handleList st chatID
      = if groupEntries st chatID = [] then [Effect.send "📋 No active categories."]
        else [Effect.send ("📋 <b>Group Categories:</b>\n"
          ++ concat ((groupEntries st chatID).map (listBlock chatID)))] := by
  unfold handleList groupEntries
  simp only [foldl_listStep, Bool.false_or]
  by_cases h : st.subscriptions.filter (fun e => startsWith e.1 (fmtInt chatID ++ ":")) = []
  · simp [h]
  · have h2 : (st.subscriptions.filter
        (fun e => startsWith e.1 (fmtInt chatID ++ ":"))).isEmpty = false := by
      cases hf : st.subscriptions.filter (fun e => startsWith e.1 (fmtInt chatID ++ ":")) with
      | nil => exact absurd hf h
      | cons _ _ => rfl
    simp [h, h2]

/-- C6: whatever the ban set, the text `handleList` sends is the header
followed, for each entry of the group, by the category name, the count and the
escaped display names of all its subscribers in list order joined by ", "; and
when every key of the registry was produced by `getSubKey`, that text holds no
occurrence of the text that opens a mention link. -/
theorem handleList_plain (st : BotState) (chatID : Int) (bans : GoMap Int Bool)
    (hkeys : ∀ e ∈ st.subscriptions, ∃ g name, e.1 = getSubKey g name) :
    (handleList { st with banList := bans } chatID
      = if groupEntries st chatID = [] then [Effect.send "📋 No active categories."]
        else [Effect.send ("📋 <b>Group Categories:</b>\n"
          ++ concat ((groupEntries st chatID).map (listBlock chatID)))])
    ∧ (∀ e ∈ groupEntries st chatID,
        listBlock chatID e = "\n🔹 <b>" ++ trimStart e.1 (fmtInt chatID ++ ":") ++ "</b> ("
          ++ fmtNat e.2.length ++ "): "
          ++ join (e.2.map (fun u => escapeString u.FirstName)) ", ")
    ∧ (∀ text, handleList { st with banList := bans } chatID = [Effect.send text] →
        contains text mentionPattern = false) := by
  have heq : handleList { st with banList := bans } chatID = handleList st chatID := rfl
  refine ⟨by rw [heq, handleList_eq], fun e _ => rfl, ?_⟩
  intro text htext
  rw [heq, handleList_eq] at htext
  have hsafe : NoLtA text.data := by
    split at htext
    · simp only [List.cons.injEq, Effect.send.injEq, and_true] at htext
      subst htext
      rw [noLtA_iff]
      decide
    · simp only [List.cons.injEq, Effect.send.injEq, and_true] at htext
      subst htext
      rw [String.data_append]
      apply concat_safe
      · intro e he c hc
        obtain ⟨g, name, hg⟩ := hkeys e (List.mem_of_mem_filter he)
        rw [hg] at hc
        exact getSubKey_noA g name c hc
      · rw [noLtA_iff]
        decide
  simp only [contains, decide_eq_false_iff_not]
  intro hinf
  have hbad : NoLtA mentionPattern.data := List.Chain'.infix hsafe hinf
  rw [noLtA_iff] at hbad
  revert hbad
  decide

/-- C6, witness: a group with one category of two subscribers, one of them
banned. -/
theorem handleList_plain_witness :
    handleList ⟨[("1:DOTA2", [⟨5, "Eve"⟩, ⟨6, "<Dan>"⟩])], [(6, true)], [], 0⟩ 1
      = [Effect.send "📋 <b>Group Categories:</b>\n\n🔹 <b>DOTA2</b> (2): Eve, &lt;Dan&gt;"] :=
  (handleList_plain ⟨[("1:DOTA2", [⟨5, "Eve"⟩, ⟨6, "<Dan>"⟩])], [], [], 0⟩ 1 [(6, true)]
    (by
      intro e he
      simp only [List.mem_singleton] at he
      subst he
      exact ⟨1, "dota2", by decide⟩)).1

/-! ## Printing and parsing integers -/

theorem digitChar_val (d : Nat) (h : d < 10) : (digitChar d).toNat - 48 = d := by
  interval_cases d <;> decide

theorem digitsVal_ge (l : List Char) (init : Nat) : init ≤ digitsVal l init := by
  induction l generalizing init with
  | nil => exact Nat.le_refl _
  | cons c l ih =>
    have := ih (init * 10 + (c.toNat - 48))
    simp only [digitsVal, List.foldl_cons] at this ⊢
    omega

theorem parseUintLoop_ok (l : List Char) (m : Nat)
    (hd : ∀ c ∈ l, 48 ≤ c.toNat ∧ c.toNat ≤ 57) (hv : digitsVal l m ≤ 2 ^ 64 - 1) :
    parseUintLoop l m = (digitsVal l m, NumStatus.ok) := by
  induction l generalizing m with
  | nil => rfl
  | cons c l ih =>
    have hc := hd c (List.mem_cons_self _ _)
    have hv2 : digitsVal l (m * 10 + (c.toNat - 48)) ≤ 2 ^ 64 - 1 := hv
    have hge := digitsVal_ge l (m * 10 + (c.toNat - 48))
    have h1 : ¬ (m ≥ (2 ^ 64 - 1) / 10 + 1) := by
      norm_num at hv2 hge ⊢
      omega
    have h2 : ¬ (m * 10 + (c.toNat - 48) > 2 ^ 64 - 1) := by
      norm_num at hv2 hge ⊢
      omega
    simp only [parseUintLoop, hc, and_self, if_true, h1, h2, if_false]
    rw [ih _ (fun x hx => hd x (List.mem_cons_of_mem _ hx)) hv2]
    rfl

theorem natDigits_spec (fuel n : Nat) (acc : List Char) (h : n < fuel) :
    ∃ ds, natDigits fuel n acc = ds ++ acc ∧ ds ≠ []
      ∧ (∀ c ∈ ds, 48 ≤ c.toNat ∧ c.toNat ≤ 57)
      ∧ ∀ init, digitsVal ds init = init * 10 ^ ds.length + n := by
  induction fuel generalizing n acc with
  | zero => omega
  | succ fuel ih =>
    simp only [natDigits]
    have hmod : n % 10 < 10 := Nat.mod_lt _ (by norm_num)
    split
    · rename_i h0
      refine ⟨[digitChar (n % 10)], rfl, by simp, ?_, ?_⟩
      · intro c hc
        simp only [List.mem_singleton] at hc
        subst hc
        exact digitChar_isDigit _
      · intro init
        simp only [digitsVal, List.foldl_cons, List.foldl_nil, List.length_singleton, pow_one,
          digitChar_val _ hmod]
        omega
    · rename_i h0
      have hlt : n / 10 < fuel := by omega
      obtain ⟨ds, h1, _, h3, h4⟩ := ih (n / 10) (digitChar (n % 10) :: acc) hlt
      refine ⟨ds ++ [digitChar (n % 10)], by simp [h1], by simp, ?_, ?_⟩
      · intro c hc
        rcases List.mem_append.1 hc with hc | hc
        · exact h3 c hc
        · simp only [List.mem_singleton] at hc
          subst hc
          exact digitChar_isDigit _
      · intro init
        have h5 := h4 init
        simp only [digitsVal, List.foldl_append, List.foldl_cons, List.foldl_nil,
          List.length_append, List.length_singleton, digitChar_val _ hmod] at h5 ⊢
        rw [h5, pow_succ]
        have := Nat.div_add_mod n 10
        nlinarith

theorem parseUint_fmtNat (n : Nat) (h : n ≤ 2 ^ 64 - 1) :
    parseUint (fmtNat n).data = (n, NumStatus.ok)
      ∧ ∃ c cs, (fmtNat n).data = c :: cs ∧ 48 ≤ c.toNat ∧ c.toNat ≤ 57 := by
  obtain ⟨ds, h1, h2, h3, h4⟩ := natDigits_spec (n + 1) n [] (Nat.lt_succ_self n)
  have hdata : (fmtNat n).data = ds := by simp [fmtNat, h1]
  have hval : digitsVal ds 0 = n := by simpa using h4 0
  rw [hdata]
  constructor
  · cases ds with
    | nil => exact absurd rfl h2
    | cons c cs =>
      simp only [parseUint]
      rw [parseUintLoop_ok _ _ h3 (by rw [hval]; exact h), hval]
  · cases ds with
    | nil => exact absurd rfl h2
    | cons c cs => exact ⟨c, cs, rfl, h3 c (List.mem_cons_self _ _)⟩

theorem parseInt_fmtInt (n : Int) (h : isInt64 n = true) :
    parseInt (fmtInt n) = (n, NumStatus.ok) := by
  simp only [isInt64, Bool.and_eq_true, decide_eq_true_eq] at h
  cases n with
  | ofNat n =>
    have hn : n < 2 ^ 63 := by
      have := h.2
      simp only [Int.ofNat_eq_coe] at this
      exact_mod_cast this
    obtain ⟨hp, c, cs, hcs, hc1, hc2⟩ := parseUint_fmtNat n (by norm_num at hn ⊢; omega)
    have hplus : c ≠ '+' := by
      intro hc
      subst hc
      revert hc1
      decide
    have hminus : c ≠ '-' := by
      intro hc
      subst hc
      revert hc1
      decide
    simp only [fmtInt, parseInt, hcs, hplus, hminus, if_false]
    rw [← hcs, parseIntSigned, hp]
    have h3 : ¬ (n ≥ 2 ^ 63) := by omega
    simp [h3]
    norm_num at hn
    omega
  | negSucc n =>
    have hn : n + 1 ≤ 2 ^ 63 := by
      have := h.1
      rw [Int.negSucc_eq] at this
      have h2 : ((n : Int) + 1) ≤ 2 ^ 63 := by linarith
      exact_mod_cast h2
    obtain ⟨hp, _⟩ := parseUint_fmtNat (n + 1) (by norm_num at hn ⊢; omega)
    have hd : (fmtInt (Int.negSucc n)).data = '-' :: (fmtNat (n + 1)).data := by
      simp [fmtInt]
    simp only [parseInt, hd]
    have hne : ('-' : Char) ≠ '+' := by decide
    simp only [hne, if_false, if_true, parseIntSigned, hp]
    have h3 : ¬ (n + 1 > 2 ^ 63) := by omega
    simp [h3, Int.negSucc_eq]
    norm_num at hn
    omega

/-! ## Saving and loading -/

theorem GoMap.store_new {α β : Type} [DecidableEq α] (m : GoMap α β) (k : α) (v : β)
    (h : k ∉ m.map Prod.fst) : GoMap.store m k v = m ++ [(k, v)] := by
  induction m with
  | nil => rfl
  | cons e m ih =>
    obtain ⟨k', v'⟩ := e
    simp only [List.map_cons, List.mem_cons, not_or] at h
    have h1 : ¬ k' = k := fun hk => h.1 hk.symm
    simp [GoMap.store, h1, ih h.2]

theorem GoMap.foldl_store {α β : Type} [DecidableEq α] (l acc : GoMap α β)
    (h : ((acc ++ l).map Prod.fst).Nodup) :
    l.foldl (fun m e => GoMap.store m e.1 e.2) acc = acc ++ l := by
  induction l generalizing acc with
  | nil => simp
  | cons e l ih =>
    have hnew : e.1 ∉ acc.map Prod.fst := by
      simp only [List.map_append, List.map_cons] at h
      rw [List.nodup_append] at h
      intro hmem
      exact h.2.2 hmem (List.mem_cons_self _ _)
    rw [List.foldl_cons, GoMap.store_new acc e.1 e.2 hnew, ih]
    · simp
    · simpa using h

theorem decodeUser_marshalUser (u : UserSubscription) (h : isInt64 u.ID = true) :
    decodeUser ⟨0, ""⟩ (marshalUser u) = some u := by
  have h1 : fieldMatch "id" "id" = true := by decide
  have h2 : fieldMatch "first_name" "id" = false := by decide
  have h3 : fieldMatch "first_name" "first_name" = true := by decide
  simp [decodeUser, marshalUser, decodeUserFields, h1, h2, h3, decodeInt64, decodeString, h]

theorem decodeUsers_marshalUser (l : List UserSubscription)
    (h : ∀ u ∈ l, isInt64 u.ID = true) : decodeUsers (l.map marshalUser) = some l := by
  induction l with
  | nil => rfl
  | cons u l ih =>
    simp [decodeUsers, decodeUser_marshalUser u (h u (List.mem_cons_self _ _)),
      ih (fun x hx => h x (List.mem_cons_of_mem _ hx))]

theorem decodeSubsFields_marshal (l m : GoMap String (List UserSubscription))
    (h : ∀ e ∈ l, ∀ u ∈ e.2, isInt64 u.ID = true) :
    decodeSubsFields (l.map (fun e => (e.1, Json.arr (e.2.map marshalUser)))) m
      = some (l.foldl (fun m e => GoMap.store m e.1 e.2) m) := by
  induction l generalizing m with
  | nil => rfl
  | cons e l ih =>
    simp [decodeSubsFields, decodeSlice,
      decodeUsers_marshalUser e.2 (h e (List.mem_cons_self _ _)),
      ih _ (fun x hx => h x (List.mem_cons_of_mem _ hx))]

theorem decodeBansFields_marshal (l m : GoMap Int Bool)
    (h : ∀ e ∈ l, isInt64 e.1 = true) :
    decodeBansFields (l.map (fun e => (fmtInt e.1, Json.bool e.2))) m
      = some (l.foldl (fun m e => GoMap.store m e.1 e.2) m) := by
  induction l generalizing m with
  | nil => rfl
  | cons e l ih =>
    simp [decodeBansFields, decodeBool, parseInt_fmtInt e.1 (h e (List.mem_cons_self _ _)),
      ih _ (fun x hx => h x (List.mem_cons_of_mem _ hx))]

theorem unmarshalStore_marshalStore (store : BotStorage)
    (h1 : ∀ e ∈ store.Subscriptions, ∀ u ∈ e.2, isInt64 u.ID = true)
    (h2 : ∀ e ∈ store.BanList, isInt64 e.1 = true) :
    unmarshalStore (marshalStore store)
      = some ⟨store.Subscriptions.foldl (fun m e => GoMap.store m e.1 e.2) [],
          store.BanList.foldl (fun m e => GoMap.store m e.1 e.2) []⟩ := by
  have f1 : fieldMatch "subscriptions" "subscriptions" = true := by decide
  have f2 : fieldMatch "ban_list" "subscriptions" = false := by decide
  have f3 : fieldMatch "ban_list" "ban_list" = true := by decide
  simp [unmarshalStore, marshalStore, decodeStoreFields, f1, f2, f3, decodeSubs, decodeBans,
    decodeSubsFields_marshal _ _ h1, decodeBansFields_marshal _ _ h2]

theorem saveData_eq (st : BotState) (h : st.Valid) :
    saveData st = marshalStore ⟨st.subscriptions, st.banList.map (fun e => (e.1, true))⟩ := by
  have h1 := GoMap.foldl_store st.subscriptions [] (by simpa using h.subsKeys)
  have h2 := GoMap.foldl_store (st.banList.map (fun e => (e.1, true))) []
    (by simpa [Function.comp_def] using h.banKeys)
  rw [List.foldl_map] at h2
  simp only [List.nil_append] at h1 h2
  simp only [saveData, h1, h2]

/-- C7: for every state a process can hold (each key once in a map, every id
an `int64`), saving it and loading the saved document into a fresh instance
gives back the same entries of category key and ordered subscriber list, the
same banned ids, and `true` stored under each of them. -/
theorem save_load_roundtrip (st : BotState) (h : st.Valid)
    (configs : GoMap String GameConfig) (owner : Int) :
    (loadData (some (saveData st)) ⟨[], [], configs, owner⟩).subscriptions = st.subscriptions
    ∧ (loadData (some (saveData st)) ⟨[], [], configs, owner⟩).banList.map Prod.fst
        = st.banList.map Prod.fst
    ∧ ∀ e ∈ (loadData (some (saveData st)) ⟨[], [], configs, owner⟩).banList, e.2 = true := by
  have hu := unmarshalStore_marshalStore ⟨st.subscriptions, st.banList.map (fun e => (e.1, true))⟩
    h.subIDs (by
      intro e he
      simp only [List.mem_map] at he
      obtain ⟨x, hx, hxe⟩ := he
      subst hxe
      exact h.banIDs x hx)
  have h1 := GoMap.foldl_store st.subscriptions [] (by simpa using h.subsKeys)
  have h2 := GoMap.foldl_store (st.banList.map (fun e => (e.1, true))) []
    (by simpa [Function.comp_def] using h.banKeys)
  simp only [List.nil_append] at h1 h2
  simp only [h1, h2] at hu
  simp only [loadData, saveData_eq st h, hu, h1, h2]
  refine ⟨trivial, by simp [Function.comp_def], ?_⟩
  intro e he
  simp only [List.mem_map] at he
  obtain ⟨x, _, hxe⟩ := he
  subst hxe
  rfl

/-- C7, witness: a state with two categories and one banned id. -/
theorem save_load_roundtrip_witness :
    (loadData (some (saveData ⟨[("1:DOTA2", [⟨5, "Eve"⟩, ⟨6, "Dan"⟩]), ("-7:PUBG", [])],
        [(6, true)], [], 0⟩)) ⟨[], [], [], 0⟩).subscriptions
      = [("1:DOTA2", [⟨5, "Eve"⟩, ⟨6, "Dan"⟩]), ("-7:PUBG", [])] :=
  (save_load_roundtrip ⟨[("1:DOTA2", [⟨5, "Eve"⟩, ⟨6, "Dan"⟩]), ("-7:PUBG", [])],
    [(6, true)], [], 0⟩ ⟨by decide, by decide, by decide, by decide⟩ [] 0).1

/-! ## Loading a legacy store file -/

/-- C8, the code at a failing input: a store file in the legacy layout, one
category with one subscriber, decodes into `BotStorage` without error (its key
names no field and is skipped), so `loadData` returns before the legacy branch
and the registry stays empty, although the legacy decoding of the same document
gives the mapping of the file. -/
theorem loadData_legacy_skipped :
    unmarshalStore (Json.obj [("1:DOTA2", Json.arr [marshalUser ⟨7, "Ann"⟩])]) = some ⟨[], []⟩
    ∧ loadData (some (Json.obj [("1:DOTA2", Json.arr [marshalUser ⟨7, "Ann"⟩])]))
        (BotState.init 0) = BotState.init 0
    ∧ unmarshalLegacy (Json.obj [("1:DOTA2", Json.arr [marshalUser ⟨7, "Ann"⟩])])
        = some [("1:DOTA2", [⟨7, "Ann"⟩])] := by
  decide

theorem decodeStoreFields_skip (kvs : List (String × Json)) (s : BotStorage)
    (h : ∀ e ∈ kvs, fieldMatch e.1 "subscriptions" = false ∧ fieldMatch e.1 "ban_list" = false) :
    decodeStoreFields kvs s = some s := by
  induction kvs with
  | nil => rfl
  | cons e kvs ih =>
    obtain ⟨k, v⟩ := e
    have h1 := h (k, v) (List.mem_cons_self _ _)
    simp only at h1
    simp only [decodeStoreFields, h1.1, h1.2, Bool.false_eq_true, if_false]
    exact ih (fun x hx => h x (List.mem_cons_of_mem _ hx))

theorem fieldMatch_getSubKey (g : Int) (name field : String) (h : ':' ∉ field.data) :
    fieldMatch (getSubKey g name) field = false := by
  by_contra hc
  simp only [Bool.not_eq_false, fieldMatch, beq_iff_eq] at hc
  apply h
  rw [← hc]
  simp only [getSubKey, String.data_append, List.map_append, List.mem_append, List.mem_map]
  exact Or.inl (Or.inr ⟨':', by decide, by decide⟩)

/-- Every store file in the legacy layout, whatever its keys `getSubKey` built
and whatever its values, leaves the state as it was. -/
theorem loadData_legacy_noop (kvs : List (String × Json)) (st : BotState)
    (h : ∀ e ∈ kvs, ∃ g name, e.1 = getSubKey g name) :
    loadData (some (Json.obj kvs)) st = st := by
  have hskip : unmarshalStore (Json.obj kvs) = some ⟨[], []⟩ := by
    apply decodeStoreFields_skip
    intro e he
    obtain ⟨g, name, hg⟩ := h e he
    rw [hg]
    exact ⟨fieldMatch_getSubKey g name _ (by decide), fieldMatch_getSubKey g name _ (by decide)⟩
  simp only [loadData, hskip, List.foldl_nil]

/-! ## The configuration loader -/

/-- C9, the code at a failing input: in a section, `time = 5` followed by
`time = abc` leaves the delay at 0, not at 5; `strconv.Atoi` returns 0 with its
error and the loader assigns that value.  A value out of the `int` range
likewise replaces the delay, by the largest `int`. -/
theorem loadConfigs_time_reset :
    (loadConfigs (some "[PUBG]\ntime = 5") (BotState.init 0)).gameConfigs
      = [("PUBG", ⟨"Game on!", 5⟩)]
    ∧ (loadConfigs (some "[PUBG]\ntime = 5\ntime = abc") (BotState.init 0)).gameConfigs
      = [("PUBG", ⟨"Game on!", 0⟩)]
    ∧ atoi "abc" = (0, NumStatus.badSyntax)
    ∧ (loadConfigs (some "[PUBG]\ntime = 5\ntime = 99999999999999999999")
        (BotState.init 0)).gameConfigs = [("PUBG", ⟨"Game on!", 2 ^ 63 - 1⟩)] := by
  decide

/-! ## The default game configuration -/

/-- C10 (as amended): for a category with no entry in the game-config table,
as is every category when the config file is missing, `/goplay` without a delay
argument arms no timer and announces at once with the body message
"Get ready!". -/
theorem handleGoPlay_default (st : BotState) (chatID : Int) (a : String) (s : Sender)
    (h : GoMap.load st.gameConfigs (toUpper a) = none) :
    loadConfigs none st = st
    ∧ handleGoPlay st chatID [a] s
      = [Effect.announce chatID (gameText st chatID (toUpper a) "Get ready!" s.Username)] := by
  refine ⟨rfl, ?_⟩
  simp [handleGoPlay, h, sendGame]

/-- C10, witness: `/goplay pubg` with no config file. -/
theorem handleGoPlay_default_witness :
    handleGoPlay (loadConfigs none (BotState.init 0)) 1 ["pubg"] ⟨7, "Ann", "ann"⟩
      = [Effect.announce 1 (gameText (loadConfigs none (BotState.init 0)) 1 (toUpper "pubg")
          "Get ready!" "ann")] :=
  (handleGoPlay_default (loadConfigs none (BotState.init 0)) 1 "pubg" ⟨7, "Ann", "ann"⟩
    (by decide)).2

/-- C10, counterexample: with no config file `/goplay pubg` announces
"Get ready!", which is not the announcement with the body "Game on!". -/
theorem handleGoPlay_default_message :
    handleGoPlay (loadConfigs none (BotState.init 0)) 1 ["pubg"] ⟨7, "Ann", "ann"⟩
      = [Effect.announce 1 "🎮 <b>PUBG</b>\nGet ready!\n\nInvited by: ann\n\n🔔 "]
    ∧ handleGoPlay (loadConfigs none (BotState.init 0)) 1 ["pubg"] ⟨7, "Ann", "ann"⟩
      ≠ sendGame (loadConfigs none (BotState.init 0)) 1 "PUBG" "Game on!" "ann" := by
  constructor
  · rfl
  · intro hc
    have h1 : handleGoPlay (loadConfigs none (BotState.init 0)) 1 ["pubg"] ⟨7, "Ann", "ann"⟩
        = [Effect.announce 1 "🎮 <b>PUBG</b>\nGet ready!\n\nInvited by: ann\n\n🔔 "] := rfl
    have h2 : sendGame (loadConfigs none (BotState.init 0)) 1 "PUBG" "Game on!" "ann"
        = [Effect.announce 1 "🎮 <b>PUBG</b>\nGame on!\n\nInvited by: ann\n\n🔔 "] := rfl
    rw [h1, h2] at hc
    simp only [List.cons.injEq, Effect.announce.injEq, and_true, true_and] at hc
    revert hc
    decide

/-! ## Dispatch now or schedule -/

/-- The decision of `/goplay`: with an effective delay of zero or less the
only effect is the announcement; with a positive one the effects are one timer,
armed with the product `time.Duration(delay) * time.Minute`, and the
scheduling reply. -/
theorem handleGoPlay_decision (st : BotState) (chatID : Int) (a : String) (more : List String)
    (s : Sender) :
    (effectiveDelay st (toUpper a) more ≤ 0 →
      handleGoPlay st chatID (a :: more) s
        = [Effect.announce chatID
            (gameText st chatID (toUpper a) (configuredMessage st (toUpper a)) s.Username)])
    ∧ (effectiveDelay st (toUpper a) more > 0 →
      handleGoPlay st chatID (a :: more) s
        = [Effect.afterFunc (minutes (effectiveDelay st (toUpper a) more)) chatID (toUpper a)
            (configuredMessage st (toUpper a)) "Scheduled System",
           Effect.reply ("⏳ Scheduled " ++ toUpper a ++ " in "
            ++ fmtInt (effectiveDelay st (toUpper a) more) ++ " mins.")]) := by
  have hd : (match more with
      | [] => (match GoMap.load st.gameConfigs (toUpper a) with
          | some c => c
          | none => ({ Message := "Get ready!", Time := 0 } : GameConfig)).Time
      | d :: _ =>
        match atoi d with
        | (n, NumStatus.ok) => n
        | _ => (match GoMap.load st.gameConfigs (toUpper a) with
          | some c => c
          | none => ({ Message := "Get ready!", Time := 0 } : GameConfig)).Time)
      = effectiveDelay st (toUpper a) more := by
    cases more with
    | nil =>
      simp only [effectiveDelay, configuredDelay]
      cases GoMap.load st.gameConfigs (toUpper a) <;> rfl
    | cons d rest =>
      simp only [effectiveDelay, configuredDelay]
      rcases hat : atoi d with ⟨n, status⟩
      cases status <;> cases GoMap.load st.gameConfigs (toUpper a) <;> simp
  have hm : (match GoMap.load st.gameConfigs (toUpper a) with
      | some c => c
      | none => ({ Message := "Get ready!", Time := 0 } : GameConfig)).Message
      = configuredMessage st (toUpper a) := by
    simp only [configuredMessage]
    cases GoMap.load st.gameConfigs (toUpper a) <;> rfl
  constructor
  · intro h
    have h2 : ¬ (effectiveDelay st (toUpper a) more > 0) := by omega
    simp only [handleGoPlay, hd, hm, h2, if_false, sendGame]
  · intro h
    simp only [handleGoPlay, hd, hm, h, if_true]

/-- C11, the code at a failing input: `/goplay pubg 153722868` arms its one
timer with a negative duration, the wrapped product of the delay and a minute,
not with 153722868 minutes, while it replies that the game is scheduled in
153722868 minutes. -/
theorem handleGoPlay_timer_wraps :
    handleGoPlay (BotState.init 0) 1 ["pubg", "153722868"] ⟨7, "Ann", "ann"⟩
      = [Effect.afterFunc (-9223371993709551616) 1 "PUBG" "Get ready!" "Scheduled System",
         Effect.reply "⏳ Scheduled PUBG in 153722868 mins."]
    ∧ (-9223371993709551616 : Int) ≠ 153722868 * 60000000000 := by
  constructor
  · rfl
  · decide

/-! ## Admin gating -/

/-- C12: for a sender who is not the owner, whatever the arguments and the
state, the `/ban`, `/unban` and `/rmcat` handlers return without error, leave the
state as it was and have no effect at all: no reply, no file write. -/
theorem admin_gating (st : BotState) (chatID : Int) (args : List String) (s : Sender)
    (h : s.ID ≠ st.ownerID) :
    handleBan st args s = some (st, [])
    ∧ handleUnban st args s = some (st, [])
    ∧ handleRmcat st chatID args s = some (st, []) := by
  simp [handleBan, handleUnban, handleRmcat, isAdmin, h]

/-- C12, witness: `/ban 123` from user 7 when the owner is user 1. -/
theorem admin_gating_witness :
    handleBan ⟨[("1:DOTA2", [⟨5, "Eve"⟩])], [(6, true)], [], 1⟩ ["123"] ⟨7, "Ann", "ann"⟩
      = some (⟨[("1:DOTA2", [⟨5, "Eve"⟩])], [(6, true)], [], 1⟩, []) :=
  (admin_gating ⟨[("1:DOTA2", [⟨5, "Eve"⟩])], [(6, true)], [], 1⟩ 1 ["123"] ⟨7, "Ann", "ann"⟩
    (by decide)).1

/-! ## Malformed arguments -/

/-- The handlers that test the number of arguments answer a missing argument
with their usage message and change nothing. -/
theorem usage_on_missing_argument (st : BotState) (chatID : Int) (s : Sender) :
    handleJoin st chatID [] s = (st, [Effect.send "❌ Usage: /join <game>"])
    ∧ handleLeave st chatID [] s = (st, [Effect.send "❌ Usage: /leave <game>"])
    ∧ handleGoPlay st chatID [] s = [Effect.send "❌ Usage: /goplay <game>"]
    ∧ handleGameNow st chatID [] s = [Effect.send "❌ /gamenow <game>"] :=
  ⟨rfl, rfl, rfl, rfl⟩

/-- C13, the code at failing inputs: issued by the owner without an argument,
`/ban`, `/unban` and `/rmcat` fail at run time on `c.Args()[0]` and send no usage
message; and `/ban abc` by the owner bans user 0, rewrites the store file and
confirms the ban. -/
theorem admin_malformed_arguments :
    handleBan (BotState.init 1) [] ⟨1, "Own", "own"⟩ = none
    ∧ handleUnban (BotState.init 1) [] ⟨1, "Own", "own"⟩ = none
    ∧ handleRmcat (BotState.init 1) 5 [] ⟨1, "Own", "own"⟩ = none
    ∧ handleBan (BotState.init 1) ["abc"] ⟨1, "Own", "own"⟩
      = some (⟨[], [(0, true)], [], 1⟩,
          [Effect.writeFile (saveData ⟨[], [(0, true)], [], 1⟩),
           Effect.send "🔨 User 0 restricted (No tags in /list)."])
    ∧ handleUnban ⟨[], [(0, true)], [], 1⟩ ["abc"] ⟨1, "Own", "own"⟩
      = some (⟨[], [], [], 1⟩,
          [Effect.writeFile (saveData ⟨[], [], [], 1⟩), Effect.send "✅ User 0 unrestricted."]) :=
  ⟨rfl, rfl, rfl, rfl, rfl⟩

/-! ## Keys and groups -/

theorem fmtNat_val (n : Nat) :
    digitsVal (fmtNat n).data 0 = n
      ∧ ∃ c cs, (fmtNat n).data = c :: cs ∧ 48 ≤ c.toNat ∧ c.toNat ≤ 57 := by
  obtain ⟨ds, h1, h2, h3, h4⟩ := natDigits_spec (n + 1) n [] (Nat.lt_succ_self n)
  have hdata : (fmtNat n).data = ds := by simp [fmtNat, h1]
  rw [hdata]
  refine ⟨by simpa using h4 0, ?_⟩
  cases ds with
  | nil => exact absurd rfl h2
  | cons c cs => exact ⟨c, cs, rfl, h3 c (List.mem_cons_self _ _)⟩

theorem fmtNat_injective (n m : Nat) (h : (fmtNat n).data = (fmtNat m).data) : n = m := by
  have h1 := (fmtNat_val n).1
  have h2 := (fmtNat_val m).1
  rw [h] at h1
  omega

theorem fmtInt_injective (a b : Int) (h : fmtInt a = fmtInt b) : a = b := by
  have hd : (fmtInt a).data = (fmtInt b).data := by rw [h]
  cases a with
  | ofNat n =>
    cases b with
    | ofNat m =>
      simp only [fmtInt] at hd
      rw [fmtNat_injective n m hd]
    | negSucc m =>
      exfalso
      obtain ⟨_, c, cs, hc, hc1, _⟩ := fmtNat_val n
      simp only [fmtInt, String.data_append, hc] at hd
      have hc2 : c = '-' := by
        have := congrArg List.head? hd
        simpa using this
      subst hc2
      revert hc1
      decide
  | negSucc n =>
    cases b with
    | ofNat m =>
      exfalso
      obtain ⟨_, c, cs, hc, hc1, _⟩ := fmtNat_val m
      simp only [fmtInt, String.data_append, hc] at hd
      have hc2 : '-' = c := by
        have := congrArg List.head? hd
        simpa using this
      subst hc2
      revert hc1
      decide
    | negSucc m =>
      simp only [fmtInt, String.data_append] at hd
      have h2 : (fmtNat (n + 1)).data = (fmtNat (m + 1)).data := by
        have := congrArg List.tail hd
        simpa using this
      have h3 := fmtNat_injective _ _ h2
      have h4 : n = m := by omega
      rw [h4]

theorem fmtInt_noColon (g : Int) : ':' ∉ (fmtInt g).data := by
  intro h
  rcases fmtInt_chars g ':' h with h1 | h1
  · revert h1
    decide
  · revert h1
    decide

theorem colon_split (l1 l2 r1 r2 : List Char) (h1 : ':' ∉ l1) (h2 : ':' ∉ l2)
    (h : l1 ++ ':' :: r1 = l2 ++ ':' :: r2) : l1 = l2 ∧ r1 = r2 := by
  induction l1 generalizing l2 with
  | nil =>
    cases l2 with
    | nil => simpa using h
    | cons d l2 =>
      exfalso
      simp only [List.nil_append, List.cons_append, List.cons.injEq] at h
      apply h2
      rw [← h.1]
      exact List.mem_cons_self _ _
  | cons c l1 ih =>
    cases l2 with
    | nil =>
      exfalso
      simp only [List.nil_append, List.cons_append, List.cons.injEq] at h
      apply h1
      rw [h.1]
      exact List.mem_cons_self _ _
    | cons d l2 =>
      simp only [List.cons_append, List.cons.injEq] at h
      have := ih l2 (fun hm => h1 (List.mem_cons_of_mem _ hm))
        (fun hm => h2 (List.mem_cons_of_mem _ hm)) h.2
      exact ⟨by rw [h.1, this.1], this.2⟩

theorem getSubKey_data (g : Int) (name : String) :
    (getSubKey g name).data = (fmtInt g).data ++ ':' :: (toUpper name).data := by
  simp [getSubKey]

theorem getSubKey_injective (g1 g2 : Int) (n1 n2 : String)
    (h : getSubKey g1 n1 = getSubKey g2 n2) : g1 = g2 ∧ toUpper n1 = toUpper n2 := by
  have hd : (getSubKey g1 n1).data = (getSubKey g2 n2).data := by rw [h]
  rw [getSubKey_data, getSubKey_data] at hd
  obtain ⟨h1, h2⟩ := colon_split _ _ _ _ (fmtInt_noColon g1) (fmtInt_noColon g2) hd
  exact ⟨fmtInt_injective g1 g2 (String.ext h1), String.ext h2⟩

theorem startsWith_getSubKey (g g2 : Int) (name : String) :
    startsWith (getSubKey g2 name) (fmtInt g ++ ":") = true ↔ g2 = g := by
  constructor
  · intro h
    simp only [startsWith, String.data_append, List.isPrefixOf_iff_prefix] at h
    obtain ⟨t, ht⟩ := h
    rw [getSubKey_data] at ht
    have hd : (fmtInt g).data ++ ':' :: t = (fmtInt g2).data ++ ':' :: (toUpper name).data := by
      simpa using ht
    obtain ⟨h1, _⟩ := colon_split _ _ _ _ (fmtInt_noColon g) (fmtInt_noColon g2) hd
    exact (fmtInt_injective g g2 (String.ext h1)).symm
  · intro h
    subst h
    simp only [startsWith, String.data_append, List.isPrefixOf_iff_prefix, getSubKey_data]
    exact ⟨(toUpper name).data, by simp⟩

theorem trimStart_getSubKey (g : Int) (name : String) :
    trimStart (getSubKey g name) (fmtInt g ++ ":") = toUpper name := by
  have h := (startsWith_getSubKey g g name).2 rfl
  simp only [trimStart, h, if_true]
  apply String.ext
  simp only [getSubKey_data, String.length, String.data_append]
  have : (fmtInt g).data ++ ':' :: (toUpper name).data
      = ((fmtInt g).data ++ ":".data) ++ (toUpper name).data := by simp
  have hlen : ((fmtInt g).append ":").data = (fmtInt g).data ++ ":".data := rfl
  rw [this, hlen, List.drop_left]

/-- C14: an entry whose key `getSubKey` built is among those `handleList`
renders for group `g` exactly when the key was built from `g`; its rendered name
is the upper-cased category name; `handleList` renders the entries of the group
and nothing else; and two keys are equal only for the same group id and names
with the same upper-casing. -/
theorem handleList_group (st : BotState) (g : Int) :
    (∀ g2 name l, (getSubKey g2 name, l) ∈ st.subscriptions →
      ((getSubKey g2 name, l) ∈ groupEntries st g ↔ g2 = g))
    ∧ (∀ name l, listBlock g (getSubKey g name, l)
        = "\n🔹 <b>" ++ toUpper name ++ "</b> (" ++ fmtNat l.length ++ "): "
          ++ join (l.map (fun u => escapeString u.FirstName)) ", ")
    ∧ (handleList st g
        = if groupEntries st g = [] then [Effect.send "📋 No active categories."]
          else [Effect.send ("📋 <b>Group Categories:</b>\n"
            ++ concat ((groupEntries st g).map (listBlock g)))])
    ∧ (∀ g1 n1 g2 n2, getSubKey g1 n1 = getSubKey g2 n2 → g1 = g2 ∧ toUpper n1 = toUpper n2) := by
  refine ⟨?_, ?_, handleList_eq st g, fun g1 n1 g2 n2 h => getSubKey_injective g1 g2 n1 n2 h⟩
  · intro g2 name l hmem
    simp only [groupEntries, List.mem_filter, hmem, true_and]
    exact startsWith_getSubKey g g2 name
  · intro name l
    simp only [listBlock, trimStart_getSubKey]

/-- C14, witness: the groups 1, 12, 11 and -1 share digits; the listing of
group 1 holds the key of group 1 and not the key of group 12. -/
theorem handleList_group_witness :
    ((getSubKey 12 "pubg", []) ∈ groupEntries
        ⟨[("1:DOTA2", [⟨5, "Eve"⟩]), ("12:PUBG", []), ("11:CS", []), ("-1:CS", [])], [], [], 0⟩ 1
      ↔ (12 : Int) = 1)
    ∧ handleList
        ⟨[("1:DOTA2", [⟨5, "Eve"⟩]), ("12:PUBG", []), ("11:CS", []), ("-1:CS", [])], [], [], 0⟩ 1
      = [Effect.send "📋 <b>Group Categories:</b>\n\n🔹 <b>DOTA2</b> (1): Eve"] :=
  ⟨(handleList_group
      ⟨[("1:DOTA2", [⟨5, "Eve"⟩]), ("12:PUBG", []), ("11:CS", []), ("-1:CS", [])], [], [], 0⟩ 1).1
      12 "pubg" [] (by decide),
   (handleList_group
      ⟨[("1:DOTA2", [⟨5, "Eve"⟩]), ("12:PUBG", []), ("11:CS", []), ("-1:CS", [])], [], [], 0⟩
      1).2.2.1⟩

/-! ## Bans, subscriptions and dispatch -/

theorem handleBan_subscriptions (st : BotState) (args : List String) (s : Sender)
    (r : BotState × List Effect) (hr : handleBan st args s = some r) :
    r.1.subscriptions = st.subscriptions := by
  unfold handleBan at hr
  split at hr
  · simp only [Option.some.injEq] at hr
    rw [← hr]
  · cases args with
    | nil => simp at hr
    | cons a rest =>
      simp only [Option.some.injEq] at hr
      rw [← hr]

theorem handleUnban_subscriptions (st : BotState) (args : List String) (s : Sender)
    (r : BotState × List Effect) (hr : handleUnban st args s = some r) :
    r.1.subscriptions = st.subscriptions := by
  unfold handleUnban at hr
  split at hr
  · simp only [Option.some.injEq] at hr
    rw [← hr]
  · cases args with
    | nil => simp at hr
    | cons a rest =>
      simp only [Option.some.injEq] at hr
      rw [← hr]

/-- C15: `/ban` and `/unban` leave every subscription list as it was, and the
registry and the replies that `/join` and `/leave` produce do not depend on the
ban set. -/
theorem bans_leave_subscriptions (st : BotState) (chatID : Int) (args : List String)
    (s : Sender) (b1 b2 : GoMap Int Bool) :
    (∀ r, handleBan st args s = some r → r.1.subscriptions = st.subscriptions)
    ∧ (∀ r, handleUnban st args s = some r → r.1.subscriptions = st.subscriptions)
    ∧ (handleJoin { st with banList := b1 } chatID args s).1.subscriptions
        = (handleJoin { st with banList := b2 } chatID args s).1.subscriptions
    ∧ replyTexts (handleJoin { st with banList := b1 } chatID args s).2
        = replyTexts (handleJoin { st with banList := b2 } chatID args s).2
    ∧ (handleLeave { st with banList := b1 } chatID args s).1.subscriptions
        = (handleLeave { st with banList := b2 } chatID args s).1.subscriptions
    ∧ replyTexts (handleLeave { st with banList := b1 } chatID args s).2
        = replyTexts (handleLeave { st with banList := b2 } chatID args s).2 := by
  refine ⟨handleBan_subscriptions st args s, handleUnban_subscriptions st args s, ?_, ?_, ?_, ?_⟩
  · cases args with
    | nil => rfl
    | cons a rest =>
      simp only [handleJoin]
      split <;> rfl
  · cases args with
    | nil => rfl
    | cons a rest =>
      simp only [handleJoin]
      split <;> rfl
  · cases args with
    | nil => rfl
    | cons a rest =>
      simp only [handleLeave]
      split <;> rfl
  · cases args with
    | nil => rfl
    | cons a rest =>
      simp only [handleLeave]
      split <;> rfl

/-- C16: the announcement `sendGame` builds, the mention string and the
effects of `/gamenow` and `/goplay` are the same under any two ban sets; the
mention string is built from the first 50 subscribers whether banned or not. -/
theorem dispatch_ignores_bans (st : BotState) (chatID : Int) (game msg sender : String)
    (args : List String) (s : Sender) (b1 b2 : GoMap Int Bool) :
    sendGame { st with banList := b1 } chatID game msg sender
      = sendGame { st with banList := b2 } chatID game msg sender
    ∧ getMentions { st with banList := b1 } chatID game
      = join (((subscribers st (getSubKey chatID game)).take 50).map mentionToken) ", "
    ∧ handleGameNow { st with banList := b1 } chatID args s
      = handleGameNow { st with banList := b2 } chatID args s
    ∧ handleGoPlay { st with banList := b1 } chatID args s
      = handleGoPlay { st with banList := b2 } chatID args s := by
  refine ⟨rfl, ?_, rfl, rfl⟩
  have h : getMentions { st with banList := b1 } chatID game = getMentions st chatID game := rfl
  rw [h]
  cases hl : GoMap.load st.subscriptions (getSubKey chatID game) with
  | none => simp [getMentions, subscribers, hl]
  | some l => simp [getMentions, subscribers, hl, mentionLoop_eq]

/-! ## Racing joins -/

/-- The two accesses of `joinStep` made back to back are `handleJoin`. -/
theorem joinStep_sequential (st : BotState) (chatID : Int) (a : String) (rest : List String)
    (s : Sender) :
    (joinStep (getSubKey chatID (toUpper a)) ⟨s.ID, s.FirstName⟩
        (joinStep (getSubKey chatID (toUpper a)) ⟨s.ID, s.FirstName⟩ st.subscriptions
          JoinPhase.start).1
        (joinStep (getSubKey chatID (toUpper a)) ⟨s.ID, s.FirstName⟩ st.subscriptions
          JoinPhase.start).2)
      = ((handleJoin st chatID (a :: rest) s).1.subscriptions, JoinPhase.done) := by
  by_cases h : (GoMap.loadOrStore st.subscriptions (getSubKey chatID (toUpper a)) []).2.any
      (fun u => decide (u.ID = s.ID)) = true
  · simp only [joinStep, handleJoin, h, if_true]
  · rw [Bool.not_eq_true] at h
    have h1 : joinStep (getSubKey chatID (toUpper a)) ⟨s.ID, s.FirstName⟩ st.subscriptions
        JoinPhase.start
        = ((GoMap.loadOrStore st.subscriptions (getSubKey chatID (toUpper a)) []).1,
            JoinPhase.loaded
              (GoMap.loadOrStore st.subscriptions (getSubKey chatID (toUpper a)) []).2) := by
      simp only [joinStep, h, Bool.false_eq_true, if_false]
    rw [h1]
    simp only [joinStep, handleJoin, h, Bool.false_eq_true, if_false]

/-- C17, the code at a failing interleaving: users 7 and 8 join the same
category at once; when both handlers make their `LoadOrStore` before either
makes its `Store`, the second `Store` replaces the first and only user 8 is left
in the list, while any order that keeps each handler's two accesses together
leaves both. -/
theorem raceJoins_lost_update :
    raceJoins "1:DOTA2" ⟨7, "Ann"⟩ ⟨8, "Bob"⟩ [true, false, true, false]
        ([], JoinPhase.start, JoinPhase.start)
      = ([("1:DOTA2", [⟨8, "Bob"⟩])], JoinPhase.done, JoinPhase.done)
    ∧ raceJoins "1:DOTA2" ⟨7, "Ann"⟩ ⟨8, "Bob"⟩ [true, true, false, false]
        ([], JoinPhase.start, JoinPhase.start)
      = ([("1:DOTA2", [⟨7, "Ann"⟩, ⟨8, "Bob"⟩])], JoinPhase.done, JoinPhase.done) := by
  decide

/-! ## Leaving removes the caller -/

theorem GoMap.keys_store_of_load {α β : Type} [DecidableEq α] (m : GoMap α β) (k : α) (v w : β)
    (h : GoMap.load m k = some v) :
    (GoMap.store m k w).map Prod.fst = m.map Prod.fst := by
  induction m with
  | nil => simp [GoMap.load] at h
  | cons e m ih =>
    obtain ⟨k', v'⟩ := e
    by_cases h1 : k' = k
    · simp [GoMap.store, h1]
    · simp only [GoMap.load, h1, if_false] at h
      simp [GoMap.store, h1, ih h]

theorem subscribers_of_mem (st : BotState) (key : String) (id : Int)
    (h : id ∈ (subscribers st key).map (fun u => u.ID)) :
    GoMap.load st.subscriptions key = some (subscribers st key) := by
  unfold subscribers at h ⊢
  cases hl : GoMap.load st.subscriptions key with
  | none => simp [hl] at h
  | some l => rfl

theorem length_filter_ne (l : List UserSubscription) (id : Int)
    (hin : id ∈ l.map (fun u => u.ID)) (hnd : (l.map (fun u => u.ID)).Nodup) :
    (l.filter (fun u => decide (u.ID ≠ id))).length + 1 = l.length := by
  induction l with
  | nil => simp at hin
  | cons u l ih =>
    simp only [List.map_cons, List.nodup_cons] at hnd
    by_cases hu : u.ID = id
    · have hno : ∀ x ∈ l, x.ID ≠ id := by
        intro x hx hxid
        apply hnd.1
        rw [hu, ← hxid]
        exact List.mem_map_of_mem _ hx
      have hf : (u :: l).filter (fun u => decide (u.ID ≠ id)) = l := by
        rw [List.filter_cons_of_neg (by simp [hu]), filter_ne_of_absent l id hno]
      rw [hf, List.length_cons]
    · have hin2 : id ∈ l.map (fun u => u.ID) := by
        simp only [List.map_cons, List.mem_cons] at hin
        rcases hin with h | h
        · exact absurd h.symm hu
        · exact h
      have := ih hin2 hnd.2
      rw [List.filter_cons_of_pos (by simp [hu]), List.length_cons, List.length_cons, this]

/-- C18: when the list of the category has no repeated id and holds the id of
the sender, `/leave` stores the list without the entry of the sender: the id is
gone, every other subscriber is kept in the same order, exactly one entry is
removed, and every other key, as well as the set of keys, is as before. -/
theorem handleLeave_removes (st : BotState) (chatID : Int) (a : String) (rest : List String)
    (s : Sender)
    (hin : s.ID ∈ (subscribers st (getSubKey chatID (toUpper a))).map (fun u => u.ID))
    (hnd : ((subscribers st (getSubKey chatID (toUpper a))).map (fun u => u.ID)).Nodup) :
    GoMap.load (handleLeave st chatID (a :: rest) s).1.subscriptions (getSubKey chatID (toUpper a))
      = some ((subscribers st (getSubKey chatID (toUpper a))).filter
          (fun u => decide (u.ID ≠ s.ID)))
    ∧ s.ID ∉ (subscribers (handleLeave st chatID (a :: rest) s).1
        (getSubKey chatID (toUpper a))).map (fun u => u.ID)
    ∧ (∀ u ∈ subscribers st (getSubKey chatID (toUpper a)), u.ID ≠ s.ID →
        u ∈ subscribers (handleLeave st chatID (a :: rest) s).1 (getSubKey chatID (toUpper a)))
    ∧ List.Sublist
        (subscribers (handleLeave st chatID (a :: rest) s).1 (getSubKey chatID (toUpper a)))
        (subscribers st (getSubKey chatID (toUpper a)))
    ∧ (subscribers (handleLeave st chatID (a :: rest) s).1
        (getSubKey chatID (toUpper a))).length + 1
        = (subscribers st (getSubKey chatID (toUpper a))).length
    ∧ (∀ k, k ≠ getSubKey chatID (toUpper a) →
        GoMap.load (handleLeave st chatID (a :: rest) s).1.subscriptions k
          = GoMap.load st.subscriptions k)
    ∧ (handleLeave st chatID (a :: rest) s).1.subscriptions.map Prod.fst
        = st.subscriptions.map Prod.fst := by
  have hl := subscribers_of_mem st _ _ hin
  have hst : (handleLeave st chatID (a :: rest) s).1.subscriptions
      = GoMap.store st.subscriptions (getSubKey chatID (toUpper a))
          ((subscribers st (getSubKey chatID (toUpper a))).filter
            (fun u => decide (u.ID ≠ s.ID))) := by
    simp only [handleLeave, hl]
  have hsub : subscribers (handleLeave st chatID (a :: rest) s).1 (getSubKey chatID (toUpper a))
      = (subscribers st (getSubKey chatID (toUpper a))).filter
          (fun u => decide (u.ID ≠ s.ID)) := by
    rw [subscribers, hst, GoMap.load_store_self]
    rfl
  refine ⟨by rw [hst, GoMap.load_store_self], ?_, ?_, ?_, ?_, ?_, ?_⟩
  · rw [hsub]
    simp [List.mem_filter]
  · intro u hu hne
    rw [hsub]
    simp [List.mem_filter, hu, hne]
  · rw [hsub]
    exact List.filter_sublist _
  · rw [hsub]
    exact length_filter_ne _ _ hin hnd
  · intro k hk
    rw [hst]
    exact GoMap.load_store_ne _ _ _ _ (fun h => hk h.symm)
  · rw [hst]
    exact GoMap.keys_store_of_load _ _ _ _ hl

/-- C18, witness: the second of three subscribers leaves. -/
theorem handleLeave_removes_witness :
    GoMap.load (handleLeave ⟨[("1:DOTA2", [⟨5, "Eve"⟩, ⟨7, "Ann"⟩, ⟨6, "Dan"⟩]), ("1:CS", [⟨7, "Ann"⟩])],
        [], [], 0⟩ 1 ["dota2"] ⟨7, "Ann", "ann"⟩).1.subscriptions (getSubKey 1 (toUpper "dota2"))
      = some ((subscribers ⟨[("1:DOTA2", [⟨5, "Eve"⟩, ⟨7, "Ann"⟩, ⟨6, "Dan"⟩]),
          ("1:CS", [⟨7, "Ann"⟩])], [], [], 0⟩ (getSubKey 1 (toUpper "dota2"))).filter
          (fun u => decide (u.ID ≠ 7))) :=
  (handleLeave_removes ⟨[("1:DOTA2", [⟨5, "Eve"⟩, ⟨7, "Ann"⟩, ⟨6, "Dan"⟩]), ("1:CS", [⟨7, "Ann"⟩])],
    [], [], 0⟩ 1 "dota2" [] ⟨7, "Ann", "ann"⟩ (by decide) (by decide)).1

/-! ## An emptied category stays listed -/

theorem toUpper_char_idem (c : Char) : Char.toUpper (Char.toUpper c) = Char.toUpper c := by
  by_cases h : c.toNat ≥ 97 ∧ c.toNat ≤ 122
  · have h1 : Char.toUpper c = Char.ofNat (c.toNat - 32) := by
      simp only [Char.toUpper, h, and_self, if_true]
    rw [h1]
    obtain ⟨h2, h3⟩ := h
    generalize c.toNat = n at h2 h3
    simp only [ge_iff_le] at h2
    interval_cases n <;> decide
  · have h1 : Char.toUpper c = c := by
      simp only [Char.toUpper, h, if_false]
    rw [h1, h1]

theorem toUpper_idem (s : String) : toUpper (toUpper s) = toUpper s := by
  apply String.ext
  simp only [toUpper, List.map_map]
  apply List.map_congr_left
  intro c _
  exact toUpper_char_idem c

theorem GoMap.load_delete_self {α β : Type} [DecidableEq α] (m : GoMap α β) (k : α) :
    GoMap.load (GoMap.delete m k) k = none := by
  induction m with
  | nil => rfl
  | cons e m ih =>
    obtain ⟨k', v'⟩ := e
    by_cases h1 : k' = k
    · simpa [GoMap.delete, List.filter_cons, h1] using ih
    · have : GoMap.delete ((k', v') :: m) k = (k', v') :: GoMap.delete m k := by
        simp [GoMap.delete, List.filter_cons, h1]
      rw [this]
      simp [GoMap.load, h1, ih]

theorem GoMap.isSome_store {α β : Type} [DecidableEq α] (m : GoMap α β) (k k2 : α) (v : β)
    (h : (GoMap.load m k).isSome = true) : (GoMap.load (GoMap.store m k2 v) k).isSome = true := by
  by_cases hk : k2 = k
  · subst hk
    rw [GoMap.load_store_self]
    rfl
  · rw [GoMap.load_store_ne _ _ _ _ hk]
    exact h

theorem handleJoin_keeps_key (st : BotState) (c : Int) (args : List String) (u : Sender)
    (k : String) (h : (GoMap.load st.subscriptions k).isSome = true) :
    (GoMap.load (handleJoin st c args u).1.subscriptions k).isSome = true := by
  cases args with
  | nil => exact h
  | cons a rest =>
    simp only [handleJoin, GoMap.loadOrStore]
    cases hl : GoMap.load st.subscriptions (getSubKey c (toUpper a)) with
    | none =>
      simp only [List.any_nil, Bool.false_eq_true, if_false]
      exact GoMap.isSome_store _ _ _ _ (GoMap.isSome_store _ _ _ _ h)
    | some l =>
      simp only
      split
      · exact h
      · exact GoMap.isSome_store _ _ _ _ h

theorem handleLeave_keeps_key (st : BotState) (c : Int) (args : List String) (u : Sender)
    (k : String) (h : (GoMap.load st.subscriptions k).isSome = true) :
    (GoMap.load (handleLeave st c args u).1.subscriptions k).isSome = true := by
  cases args with
  | nil => exact h
  | cons a rest =>
    simp only [handleLeave]
    cases hl : GoMap.load st.subscriptions (getSubKey c (toUpper a)) with
    | none => exact h
    | some l => exact GoMap.isSome_store _ _ _ _ h

theorem joinThenLeave_subscriptions (st : BotState) (chatID : Int) (a : String)
    (rest : List String) (s : Sender)
    (habs : GoMap.load st.subscriptions (getSubKey chatID (toUpper a)) = none) :
    (joinThenLeave st chatID (a :: rest) s).subscriptions
      = GoMap.store st.subscriptions (getSubKey chatID (toUpper a)) [] := by
  have hcount : countID (subscribers st (getSubKey chatID (toUpper a))) s.ID = 0 := by
    simp [subscribers, habs, countID]
  have h1 := handleJoin_fresh st chatID a rest s hcount
  have hsub : subscribers st (getSubKey chatID (toUpper a)) = [] := by
    simp [subscribers, habs]
  rw [hsub, List.nil_append] at h1
  have h2 : GoMap.load (handleJoin st chatID (a :: rest) s).1.subscriptions
      (getSubKey chatID (toUpper a)) = some [⟨s.ID, s.FirstName⟩] := by
    rw [h1, GoMap.load_store_self]
  simp only [joinThenLeave, handleLeave, h2]
  rw [h1, GoMap.store_store]
  simp

theorem listBlock_empty (chatID : Int) (a : String) :
    listBlock chatID (getSubKey chatID (toUpper a), []) = "\n🔹 <b>" ++ toUpper a ++ "</b> (0): " := by
  simp only [listBlock, trimStart_getSubKey, toUpper_idem]
  apply String.ext
  simp [String.data_append, join, fmtNat, natDigits, digitChar]

/-- C19: after a user joins a category that had no list and leaves it, the key
is still in the registry with an empty list, `handleList` renders the category
with a count of 0 and not "No active categories"; `/join`, `/leave`, `/ban` and
`/unban` never remove the key, and `/rmcat` by the owner removes it. -/
theorem emptied_category_listed (st : BotState) (chatID : Int) (a : String)
    (rest : List String) (s : Sender)
    (habs : GoMap.load st.subscriptions (getSubKey chatID (toUpper a)) = none) :
    GoMap.load (joinThenLeave st chatID (a :: rest) s).subscriptions
        (getSubKey chatID (toUpper a)) = some []
    ∧ (getSubKey chatID (toUpper a), []) ∈ groupEntries (joinThenLeave st chatID (a :: rest) s) chatID
    ∧ listBlock chatID (getSubKey chatID (toUpper a), [])
        = "\n🔹 <b>" ++ toUpper a ++ "</b> (0): "
    ∧ handleList (joinThenLeave st chatID (a :: rest) s) chatID
        = [Effect.send ("📋 <b>Group Categories:</b>\n"
            ++ concat ((groupEntries (joinThenLeave st chatID (a :: rest) s) chatID).map
                (listBlock chatID)))]
    ∧ (∀ c args u, (GoMap.load (handleJoin (joinThenLeave st chatID (a :: rest) s) c args
          u).1.subscriptions (getSubKey chatID (toUpper a))).isSome = true
        ∧ (GoMap.load (handleLeave (joinThenLeave st chatID (a :: rest) s) c args
          u).1.subscriptions (getSubKey chatID (toUpper a))).isSome = true)
    ∧ (∀ args u r, (handleBan (joinThenLeave st chatID (a :: rest) s) args u = some r
          ∨ handleUnban (joinThenLeave st chatID (a :: rest) s) args u = some r) →
        (GoMap.load r.1.subscriptions (getSubKey chatID (toUpper a))).isSome = true)
    ∧ (∀ o : Sender, o.ID = st.ownerID →
        ∃ r, handleRmcat (joinThenLeave st chatID (a :: rest) s) chatID (a :: rest) o = some r
          ∧ GoMap.load r.1.subscriptions (getSubKey chatID (toUpper a)) = none) := by
  have hsubs := joinThenLeave_subscriptions st chatID a rest s habs
  have hload : GoMap.load (joinThenLeave st chatID (a :: rest) s).subscriptions
      (getSubKey chatID (toUpper a)) = some [] := by
    rw [hsubs, GoMap.load_store_self]
  have hmem : (getSubKey chatID (toUpper a), [])
      ∈ groupEntries (joinThenLeave st chatID (a :: rest) s) chatID := by
    simp only [groupEntries, List.mem_filter]
    exact ⟨GoMap.mem_of_load _ _ _ hload, (startsWith_getSubKey chatID chatID _).2 rfl⟩
  have hne : groupEntries (joinThenLeave st chatID (a :: rest) s) chatID ≠ [] :=
    List.ne_nil_of_mem hmem
  have howner : (joinThenLeave st chatID (a :: rest) s).ownerID = st.ownerID := by
    simp only [joinThenLeave, handleLeave, handleJoin]
    split <;> split <;> rfl
  have hs : (GoMap.load (joinThenLeave st chatID (a :: rest) s).subscriptions
      (getSubKey chatID (toUpper a))).isSome = true := by
    rw [hload]
    rfl
  refine ⟨hload, hmem, listBlock_empty chatID a, ?_, ?_, ?_, ?_⟩
  · rw [handleList_eq, if_neg hne]
  · intro c args u
    exact ⟨handleJoin_keeps_key _ c args u _ hs, handleLeave_keeps_key _ c args u _ hs⟩
  · intro args u r hr
    rcases hr with hr | hr
    · rw [handleBan_subscriptions _ args u r hr]
      exact hs
    · rw [handleUnban_subscriptions _ args u r hr]
      exact hs
  · intro o ho
    have hadmin : isAdmin (joinThenLeave st chatID (a :: rest) s) o.ID = true := by
      simp [isAdmin, howner, ho]
    simp only [handleRmcat, hadmin, Bool.not_true, Bool.false_eq_true, if_false]
    exact ⟨_, rfl, GoMap.load_delete_self _ _⟩

/-- C19, witness: the first user of a category joins and leaves. -/
theorem emptied_category_listed_witness :
    handleList (joinThenLeave (BotState.init 0) 1 ["dota2"] ⟨7, "Ann", "ann"⟩) 1
      = [Effect.send "📋 <b>Group Categories:</b>\n\n🔹 <b>DOTA2</b> (0): "] :=
  (emptied_category_listed (BotState.init 0) 1 "dota2" [] ⟨7, "Ann", "ann"⟩ (by decide)).2.2.2.1

/-! ## The duration of the timer -/

/-- Up to 153722867 minutes the product is exact and positive. -/
theorem minutes_exact (d : Int) (h1 : 0 < d) (h2 : d ≤ 153722867) :
    minutes d = d * 60000000000 ∧ 0 < minutes d := by
  have h3 : minutes d = d * 60000000000 := by
    unfold minutes
    rw [Int.emod_eq_of_lt (by omega) (by omega)]
    omega
  rw [h3]
  exact ⟨rfl, by omega⟩

/-- From 153722868 minutes up to the largest `int64` delay whose product stays
below 2 ^ 64 the duration differs from the product. -/
theorem minutes_wrapped (d : Int) (h1 : 153722868 ≤ d) (h2 : d ≤ 307445734) :
    minutes d = d * 60000000000 - 2 ^ 64 ∧ minutes d < 0 := by
  have h3 : minutes d = d * 60000000000 - 2 ^ 64 := by
    unfold minutes
    have h4 : (d * 60000000000 + 2 ^ 63) % 2 ^ 64 = d * 60000000000 + 2 ^ 63 - 2 ^ 64 := by
      rw [Int.emod_eq_sub_self_emod, Int.emod_eq_of_lt (by omega) (by omega)]
    rw [h4]
    omega
  rw [h3]
  exact ⟨rfl, by omega⟩

/-- C20, the code at a failing input: a delay of 153722868 minutes is accepted
both as the `/goplay` argument and as the `time` of a config section; its
duration in nanoseconds, computed in 64 bits, is negative and is not the product
153722868 * 60 * 10^9, so the timer that is armed fires at once, while one
minute less still gives the exact product. -/
theorem minutes_overflow :
    atoi "153722868" = (153722868, NumStatus.ok)
    ∧ minutes 153722868 = -9223371993709551616
    ∧ minutes 153722868 ≠ 153722868 * 60000000000
    ∧ minutes 153722868 < 0
    ∧ minutes 153722867 = 153722867 * 60000000000
    ∧ handleGoPlay (loadConfigs (some "[pubg]\ntime = 153722868") (BotState.init 0)) 1 ["pubg"]
        ⟨7, "Ann", "ann"⟩
      = [Effect.afterFunc (-9223371993709551616) 1 "PUBG" "Game on!" "Scheduled System",
         Effect.reply "⏳ Scheduled PUBG in 153722868 mins."] := by
  refine ⟨by decide, by decide, by decide, by decide, by decide, ?_⟩
  rfl

end TgBot
